import Mathlib

/-!
Route planner of `service-portal-with-tour-filtering/script.js`.

A shallow embedding of the stop list handling of the field-service portal:
`loadStops` (fetch and sort), `handleDrop` (drag-and-drop reorder) and
`saveNewSequence` (writing the new order back to the remote object store).

Modelling conventions.

* A stop is a record; `sequence_number` is `none` when the field is missing
  (`undefined`) and `some k` for an integer value.
* JavaScript arrays of stops are lists.
* `data-index` attributes are written by `renderStopsList` from array indices,
  so the indices read back by `parseInt` are natural numbers.
* The remote object store is a map from stop id to the stored
  `sequence_number`; `updateBubbleObject('stop', id, { sequence_number: p })`
  overwrites the entry of `id`.
* The promise of an `updateBubbleObject` call settles as resolved with an
  answer carrying `success`, or as rejected; the calls themselves are made
  while `saveNewSequence` maps over the list, before anything is awaited.
* Numbers that are added, multiplied or divided are exact rationals rounded to
  double precision after every operation (`JSNumber`); built-in string
  methods the code relies on (`toLowerCase`, `new Date`) are parameters.

The other components (`ApPortal`, `IotDashboard`, `AssetManagement`,
`EmployeeDirectory`, `PersonnelManagement`) follow the route planner, each in
its own namespace.
-/

namespace ServicePortal

/-- A `stop` object as returned by the object store. -/
structure Stop where
  _id : String
  sequence_number : Option Int
  completed_boolean : Bool
  customer_name_text : Option String
  address_text : Option String
  standort_custom_gen_standort : Option String
  deriving DecidableEq, Repr

/-- The fields of the module-level `state` that the stop list code touches. -/
structure State where
  selectedTourId : Option String
  stops : List Stop
  selectedStopId : Option String
  draggedIndex : Option Nat
  deriving DecidableEq, Repr

/-- The initial `state` object (lines 3-11). -/
def State.init : State :=
  { selectedTourId := none, stops := [], selectedStopId := none, draggedIndex := none }

/-- The call `updateBubbleObject('stop', id, { sequence_number })`. -/
structure Update where
  id : String
  sequence_number : Int
  deriving DecidableEq, Repr

/-- `Array.prototype.splice(start, deleteCount, ...items)` for a non-negative
`start`: the start is clamped to the length, the delete count to what is left.
Returns the removed elements and the array after the call. -/
def splice {α : Type} (xs : List α) (start deleteCount : Nat) (items : List α) :
    List α × List α :=
  let actualStart := min start xs.length
  let actualDeleteCount := min deleteCount (xs.length - actualStart)
  ((xs.drop actualStart).take actualDeleteCount,
    xs.take actualStart ++ items ++ xs.drop (actualStart + actualDeleteCount))

/-- The promises built by `state.stops.map((stop, index) => ...)` in
`saveNewSequence` (lines 200-205), one per stop in list order: `some u` when
`updateBubbleObject` is called with `u`, `none` for `Promise.resolve`. -/
def saveNewSequence (st : State) : List (Option Update) :=
  st.stops.enum.map fun (index, stop) =>
    if stop.sequence_number ≠ some ((index : Int) + 1) then
      some { id := stop._id, sequence_number := (index : Int) + 1 }
    else
      none

/-- The remote updates that one `saveNewSequence` call issues, in list order. -/
def issuedUpdates (st : State) : List Update :=
  (saveNewSequence st).filterMap id

/-- `handleDragStart` (lines 166-171): remembers the index of the dragged card. -/
def handleDragStart (st : State) (index : Nat) : State :=
  { st with draggedIndex := some index }

/-- `handleDrop` (lines 182-197) on the card with `data-index = targetIndex`.
Returns the state after the handler together with the promises that its
`saveNewSequence` call builds (`[]` when the handler returns early).
A `null` dragged index never equals the target and is used by `splice` as
start `0`.  The result is `none` when `splice` removes nothing, so that
`movedItem` is `undefined`: the handler then stores an array holding `undefined`
and throws in `renderStopsList`; `handleDropRaw` gives the state it leaves. -/
def handleDrop (st : State) (targetIndex : Nat) : Option (State × List (Option Update)) :=
  let sourceIndex := st.draggedIndex
  if sourceIndex = some targetIndex then some (st, [])
  else
    let newStops := st.stops
    let (removed, newStops) := splice newStops (sourceIndex.getD 0) 1 []
    match removed.head? with
    | none => none
    | some movedItem =>
      let (_, newStops) := splice newStops targetIndex 0 [movedItem]
      let st' := { st with stops := newStops }
      some (st', saveNewSequence st')

/-- The module-level `state` when `state.stops` may hold `undefined` entries
(`none`). -/
structure RawState where
  selectedTourId : Option String
  stops : List (Option Stop)
  selectedStopId : Option String
  draggedIndex : Option Nat
  deriving DecidableEq, Repr

/-- A state whose stops are all defined, as a raw state. -/
def State.toRaw (st : State) : RawState :=
  { selectedTourId := st.selectedTourId, stops := st.stops.map some,
    selectedStopId := st.selectedStopId, draggedIndex := st.draggedIndex }

/-- The stops of an array without `undefined` entries; `none` when it has one. -/
def definedStops : List (Option Stop) → Option (List Stop)
  | [] => some []
  | none :: _ => none
  | some stop :: rest => (definedStops rest).map fun stops => stop :: stops

/-- `handleDrop` (lines 182-197) on the array as JavaScript holds it.  Returns
the state the handler leaves and the promises its `saveNewSequence` call
builds, `none` when the handler throws before that call: `const [movedItem]`
is `undefined` when `splice` removes nothing, line 191 inserts it, line 193
stores the array, and `renderStopsList` throws on `stop._id`. -/
def handleDropRaw (st : State) (targetIndex : Nat) :
    RawState × Option (List (Option Update)) :=
  let sourceIndex := st.draggedIndex
  if sourceIndex = some targetIndex then (st.toRaw, some [])
  else
    let newStops := st.stops.map some
    let (removed, newStops) := splice newStops (sourceIndex.getD 0) 1 []
    let movedItem : Option Stop := removed.head?.join
    let (_, newStops) := splice newStops targetIndex 0 [movedItem]
    let raw := { st.toRaw with stops := newStops }
    match definedStops newStops with
    | some stops => (raw, some (saveNewSequence { st with stops := stops }))
    | none => (raw, none)

/-- The comparator of the load sort (line 72):
`(a.sequence_number || 0) - (b.sequence_number || 0)`. -/
def compareFn (a b : Stop) : Int :=
  a.sequence_number.getD 0 - b.sequence_number.getD 0

/-- Insertion of one element into a sorted list, after nothing it compares
equal to or smaller than. -/
def sortInsert {α : Type} (cmp : α → α → Int) (a : α) : List α → List α
  | [] => [a]
  | b :: l => if cmp a b ≤ 0 then a :: b :: l else b :: sortInsert cmp a l

/-- `Array.prototype.sort(cmp)`: a stable sort (ECMAScript 2019), here by
insertion from the right. -/
def jsSort {α : Type} (cmp : α → α → Int) : List α → List α
  | [] => []
  | a :: l => sortInsert cmp a (jsSort cmp l)

/-- The answer of `listBubbleObjects`. -/
structure Response where
  success : Bool
  data : List Stop
  deriving DecidableEq, Repr

/-- `loadStops` (lines 54-81) once the request has settled: `some res` is the
resolved answer, `none` a rejected request (caught and logged). -/
def loadStops (st : State) (res : Option Response) : State :=
  match res with
  | some res => if res.success then { st with stops := jsSort compareFn res.data } else st
  | none => st

/-- The remote store: the stored `sequence_number` of each stop id. -/
abbrev Remote := String → Option Int

/-- A successful `updateBubbleObject('stop', id, { sequence_number })`. -/
def applyUpdate (remote : Remote) (u : Update) : Remote :=
  fun id => if id = u.id then some u.sequence_number else remote id

/-- All updates of a batch succeed and are applied, in the given order. -/
def applyUpdates (remote : Remote) (us : List Update) : Remote :=
  us.foldl applyUpdate remote

/-- The remote store that holds exactly the given stops. -/
def remoteOf (stops : List Stop) : Remote :=
  fun id => (stops.find? fun s => s._id = id).bind fun s => s.sequence_number

/-- One user gesture: drag the card at `sourceIndex`, drop it on the card at
`targetIndex`; every update of the reconciliation succeeds and is applied to
the remote store.  When the drop handler throws, the result is the error
holding the state it leaves, with its `undefined` entry. -/
def dragAndDrop (c : State × Remote) (move : Nat × Nat) : Except RawState (State × Remote) :=
  match handleDrop (handleDragStart c.1 move.1) move.2 with
  | some (st', calls) => Except.ok (st', applyUpdates c.2 (calls.filterMap id))
  | none => Except.error (handleDropRaw (handleDragStart c.1 move.1) move.2).1

/-- A finite sequence of gestures, each reconciled before the next; the run ends
with the first gesture whose handler throws. -/
def session (c : State × Remote) :
    List (Nat × Nat) → Except RawState (State × Remote)
  | [] => Except.ok c
  | move :: moves =>
    match dragAndDrop c move with
    | Except.ok c' => session c' moves
    | Except.error raw => Except.error raw

/-- A stop with only id and position set. -/
def mkStop (id : String) (pos : Option Int) : Stop :=
  { _id := id, sequence_number := pos, completed_boolean := false,
    customer_name_text := none, address_text := none,
    standort_custom_gen_standort := none }

/-- The state holding the given stops with the card at `sourceIndex` dragged. -/
def dragging (stops : List Stop) (sourceIndex : Nat) : State :=
  handleDragStart { State.init with stops := stops } sourceIndex

/-- The slot in which a single-element reorder from `s` to `t` leaves the
element formerly at index `i`. -/
def newIndex (s t i : Nat) : Nat :=
  if i = s then t
  else if s < i ∧ i ≤ t then i - 1
  else if t ≤ i ∧ i < s then i + 1
  else i

/-- Three stops `A`, `B`, `C` stored at positions 1, 2, 3. -/
def threeStops : List Stop :=
  [mkStop "A" (some 1), mkStop "B" (some 2), mkStop "C" (some 3)]

/-- Five stops `a` .. `e` stored at positions 1 .. 5. -/
def fiveStops : List Stop :=
  [mkStop "a" (some 1), mkStop "b" (some 2), mkStop "c" (some 3), mkStop "d" (some 4),
    mkStop "e" (some 5)]

/-- How the promise returned by one `updateBubbleObject` call settles: resolved
with an answer carrying `success`, or rejected. -/
inductive Outcome where
  | resolved (success : Bool)
  | rejected
  deriving DecidableEq, Repr

/-- What `saveNewSequence` writes to the console once `Promise.all` has settled:
`console.log("Route sequence updated successfully")` (line 209) or
`console.error("Error updating sequence:", err)` (line 211). -/
inductive ConsoleLine where
  | updatedSuccessfully
  | errorUpdating
  deriving DecidableEq, Repr

/-- `Promise.all` resolves when every promise resolves and rejects as soon as
one of them rejects; the answers of resolved promises are not looked at. -/
def promiseAllResolves (outcomes : List Outcome) : Bool :=
  outcomes.all fun o => decide (o ≠ Outcome.rejected)

/-- How the promises built by `saveNewSequence` settle when the remote call of
update `u` settles as `persist u`; `Promise.resolve({ success: true })` is
resolved with success. -/
def settle (persist : Update → Outcome) (updates : List (Option Update)) : List Outcome :=
  updates.map fun p =>
    match p with
    | some u => persist u
    | none => Outcome.resolved true

/-- The rest of `saveNewSequence` after `await Promise.all(updates)` (lines
207-212), run in the state that is current when the promises have settled:
one console line is written and `state` is not assigned. -/
def saveNewSequenceSettled (st : State) (outcomes : List Outcome) : State × ConsoleLine :=
  (st, if promiseAllResolves outcomes then ConsoleLine.updatedSuccessfully
    else ConsoleLine.errorUpdating)

/-- A complete run of `saveNewSequence`. -/
structure SaveRun where
  calls : List Update
  outcomes : List Outcome
  console : ConsoleLine
  state : State
  deriving DecidableEq, Repr

/-- `saveNewSequence` (lines 199-213) against a persistence stub, with no other
handler running in between: `calls` is the log of `updateBubbleObject`
invocations in order. -/
def saveNewSequenceRun (persist : Update → Outcome) (st : State) : SaveRun :=
  let updates := saveNewSequence st
  let outcomes := settle persist updates
  let settled := saveNewSequenceSettled st outcomes
  { calls := updates.filterMap id, outcomes := outcomes, console := settled.2,
    state := settled.1 }

/-- The diff in the words of the specification: the stops, with their index,
whose stored position differs from `index + 1`. -/
def diffEntries (st : State) : List (Nat × Stop) :=
  st.stops.enum.filter fun p => decide (p.2.sequence_number ≠ some ((p.1 : Int) + 1))

/-- A persistence stub that settles as `bad` for one chosen id and succeeds for
every other id. -/
def failingFor (badId : String) (bad : Outcome) : Update → Outcome :=
  fun u => if u.id = badId then bad else Outcome.resolved true

/-- A `tour` object; only the id is read by the code modelled here. -/
structure Tour where
  _id : String
  name_text : Option String
  deriving DecidableEq, Repr

/-- The synchronous part of `selectTour` (lines 215-225) with `state.tours = tours`:
the state when the handler returns and whether `loadStops(id)` has been started.
When no tour has the id, `tour.name_text` throws after the two assignments and
`loadStops` is not reached. -/
def selectTour (tours : List Tour) (st : State) (id : String) : State × Bool :=
  let st' := { st with selectedTourId := some id, selectedStopId := none }
  match tours.find? fun t => decide (t._id = id) with
  | some _ => (st', true)
  | none => (st', false)

/-- `selectTour` followed by the settling of the `loadStops` request it started. -/
def selectTourSettled (tours : List Tour) (st : State) (id : String)
    (res : Option Response) : State :=
  let r := selectTour tours st id
  if r.2 then loadStops r.1 res else r.1

end ServicePortal

/-! JavaScript numbers and strings, as far as the components use them. -/

namespace JSNumber

/-- Rounding of a rational to the nearest integer, ties to the even one. -/
def roundHalfEven (y : ℚ) : ℤ :=
  if y - ⌊y⌋ < 1 / 2 then ⌊y⌋
  else if 1 / 2 < y - ⌊y⌋ then ⌊y⌋ + 1
  else if ⌊y⌋ % 2 = 0 then ⌊y⌋ else ⌊y⌋ + 1

/-- The IEEE 754 binary64 value nearest to `q` (53 significant bits, ties to
even), as an exact rational.  The exponent range is not bounded: the model is
that of JavaScript numbers as long as no overflow or subnormal value occurs. -/
def toDouble (q : ℚ) : ℚ :=
  if q = 0 then 0
  else (roundHalfEven (q / 2 ^ (Int.log 2 |q| - 52)) : ℚ) * 2 ^ (Int.log 2 |q| - 52)

/-- The operator `+` on numbers. -/
def add (a b : ℚ) : ℚ := toDouble (a + b)

/-- The operator `*` on numbers. -/
def mul (a b : ℚ) : ℚ := toDouble (a * b)

/-- The operator `/` on numbers, for a non-zero divisor. -/
def div (a b : ℚ) : ℚ := toDouble (a / b)

/-- `Math.round`: the nearest integer, ties towards plus infinity. -/
def mathRound (x : ℚ) : ℤ := ⌊x + 1 / 2⌋

end JSNumber

namespace JSString

/-- `s.includes(sub)`: `sub` occurs in `s` as a contiguous piece. -/
def includes (s sub : String) : Bool := decide (sub.data <:+: s.data)

/-- Lower-casing of the letters `A`-`Z` only, a stand-in used for examples.  It
agrees with `toLowerCase` on strings whose other characters are their own
lower-case form, not on others (`toLowerCase` maps the Kelvin sign U+212A to
`k`, for instance). -/
def asciiLower (s : String) : String := ⟨s.data.map Char.toLower⟩

end JSString

namespace ServicePortal

/-- `updateHeaderStats` (lines 330-333): the numbers `done`, `total` and
`percent = total ? Math.round((done / total) * 100) : 0`. -/
def updateHeaderStats (st : State) : Nat × Nat × ℤ :=
  let done := (st.stops.filter fun s => s.completed_boolean).length
  let total := st.stops.length
  let percent := if total = 0 then 0
    else JSNumber.mathRound (JSNumber.mul (JSNumber.div done total) 100)
  (done, total, percent)

/-- A list of `total` stops of which the first `done` are completed. -/
def stopsWithDone (done total : Nat) : List Stop :=
  List.replicate done { mkStop "s" none with completed_boolean := true } ++
    List.replicate (total - done) (mkStop "s" none)

end ServicePortal

/-! Accounts payable portal, `ap-portal-with-kpi-summary/script.js`. -/

namespace ApPortal

/-- An `erp_ek_zeile` object (invoice position). -/
structure Position where
  _id : String
  beleg_custom_erp_ek_beleg : Option String
  artikel_text : Option String
  deriving DecidableEq, Repr

/-- An `erp_ek_beleg` object (invoice); a number field holds the exact value of
the double, `none` when the field is missing. -/
structure Beleg where
  _id : String
  betrag_brutto_number : Option ℚ
  status_option_erp_eingangsrechnung_status : Option String
  deriving DecidableEq, Repr

/-- The module-level variables of the portal (lines 9-13). -/
structure State where
  allBelege : List Beleg
  allRechnungspositionen : List Position
  selectedBeleg : Option Beleg
  filteredPositionen : List Position
  deriving DecidableEq, Repr

/-- `filterPositionenByBeleg` (lines 34-47); `none` is a missing id, and an
empty id is falsy as well.  The function reads `allRechnungspositionen` and
assigns nothing. -/
def filterPositionenByBeleg (st : State) (belegId : Option String) : List Position :=
  match belegId with
  | none => []
  | some id =>
    if id = "" then []
    else st.allRechnungspositionen.filter fun position =>
      decide (position.beleg_custom_erp_ek_beleg = some id)

/-- The answer of `listBubbleObjects` for invoice positions. -/
structure LinesResponse where
  success : Bool
  data : Option (List Position)
  deriving DecidableEq, Repr

/-- The merge of lines 195-199: every fetched position whose `_id` is not yet
present is pushed to `allRechnungspositionen`. -/
def mergePositionen (all : List Position) (data : List Position) : List Position :=
  data.foldl (fun acc pos =>
    if (acc.find? fun p => decide (p._id = pos._id)).isSome then acc else acc ++ [pos]) all

/-- `selectInvoice` (lines 158-215) as far as the module variables go;
`linesRes` is the settled fallback request, `none` when it is rejected (the
handler then ends with the exception). -/
def selectInvoice (st : State) (id : String) (linesRes : Option LinesResponse) : State :=
  match st.allBelege.find? fun b => decide (b._id = id) with
  | none => { st with selectedBeleg := none }
  | some beleg =>
    let st1 := { st with selectedBeleg := some beleg }
    let st2 := { st1 with filteredPositionen := filterPositionenByBeleg st1 (some id) }
    if st2.filteredPositionen.length > 0 then st2
    else
      match linesRes with
      | none => st2
      | some res =>
        match res.data with
        | none => st2
        | some data =>
          if res.success ∧ data.length > 0 then
            let st3 := { st2 with
              allRechnungspositionen := mergePositionen st2.allRechnungspositionen data }
            let verified := data.filter fun pos =>
              decide (pos.beleg_custom_erp_ek_beleg = some id)
            if verified.length > 0 then { st3 with filteredPositionen := verified }
            else { st3 with filteredPositionen := [] }
          else st2

/-- The numbers computed by `renderKPIs` (lines 111-117). -/
structure KPIs where
  totalBrutto : ℚ
  invoiceCount : Nat
  pendingSum : ℚ
  deriving DecidableEq, Repr

/-- `renderKPIs` (lines 107-127): `reduce` adds with the number operator `+`,
starting from 0; a missing (or zero) amount counts as 0. -/
def renderKPIs (items : List Beleg) : KPIs :=
  { totalBrutto := items.foldl (fun acc b => JSNumber.add acc (b.betrag_brutto_number.getD 0)) 0
    invoiceCount := items.length
    pendingSum :=
      (items.filter fun b =>
          decide (b.status_option_erp_eingangsrechnung_status ≠ some "Bezahlt")).foldl
        (fun acc b => JSNumber.add acc (b.betrag_brutto_number.getD 0)) 0 }

/-- Three invoices over 0.10 (paid), 0.20 and 0.30 (both pending); the amounts
are the doubles nearest to these decimals. -/
def dreiBelege : List Beleg :=
  [⟨"B1", some (JSNumber.toDouble (1 / 10)), some "Bezahlt"⟩,
    ⟨"B2", some (JSNumber.toDouble (2 / 10)), some "Offen"⟩,
    ⟨"B3", some (JSNumber.toDouble (3 / 10)), none⟩]

/-- The same left-to-right sum over the items whose status is 'Bezahlt'. -/
def paidSum (items : List Beleg) : ℚ :=
  (items.filter fun b =>
      decide (b.status_option_erp_eingangsrechnung_status = some "Bezahlt")).foldl
    (fun acc b => JSNumber.add acc (b.betrag_brutto_number.getD 0)) 0

end ApPortal

/-! IoT dashboard, `asdasdasd/script.js`. -/

namespace IotDashboard

/-- A `data_measurementobservation` object; the timestamp is a point in time. -/
structure Observation where
  zeitstempel_date : Int
  value_number_number : Option ℚ
  deriving DecidableEq, Repr

/-- The answer of `listBubbleObjects` for observations. -/
structure ObservationResponse where
  success : Bool
  data : Option (List Observation)
  deriving DecidableEq, Repr

/-- The list `obs` that `fetchAnalysisData` (lines 333-337) hands to
`renderChart`, `renderSummary` and `renderRecentTable`: `result.data.reverse()`;
`none` when the answer is a failure or has no data. -/
def fetchAnalysisData (result : ObservationResponse) : Option (List Observation) :=
  match result.data with
  | some data => if result.success then some data.reverse else none
  | none => none

/-- The observations shown as rows by `renderRecentTable` (lines 383-399):
`[...items].reverse().slice(0, 15)`, no row for an empty list. -/
def renderRecentTable (items : List Observation) : List Observation :=
  if items.length = 0 then [] else items.reverse.take 15

end IotDashboard

/-! Asset management, `asset-management-refined-with-location-lookup/script.js`. -/

namespace AssetManagement

/-- `getStatusClass` (lines 30-36); `toLowerCase` is the built-in string
method, `none` a missing (`null` or `undefined`) status. -/
def getStatusClass (toLowerCase : String → String) (status : Option String) : String :=
  let s := toLowerCase (status.getD "")
  if JSString.includes s "aktiv" || JSString.includes s "betrieb" then "ast01-badge-success"
  else if JSString.includes s "wartung" || JSString.includes s "reparatur" then
    "ast01-badge-warning"
  else if JSString.includes s "defekt" || JSString.includes s "ausgemustert" then
    "ast01-badge-danger"
  else "ast01-badge-neutral"

end AssetManagement

/-! Employee directory, `erp-mitarbeiter-stamm-live/script.js`. -/

namespace EmployeeDirectory

/-- A text field of an object: absent (`undefined`), `null`, or a string. -/
inductive TextField where
  | missing
  | null
  | text (value : String)
  deriving DecidableEq, Repr

/-- A `gen_mitarbeiter` object as read by the filter. -/
structure Employee where
  vorname_text : TextField
  nachname_text : TextField
  unternehmen_mail_text : TextField
  personalnummer_text : TextField
  kostenstelle_custom_kostenstelle : Option String
  austritt_date : Option String
  deriving DecidableEq, Repr

/-- A field inside a template literal: an absent field prints as `undefined`,
a `null` field as `null`. -/
def interpolate : TextField → String
  | TextField.missing => "undefined"
  | TextField.null => "null"
  | TextField.text value => value

/-- `matchesSearch` (lines 92-93) for the value of the search input. -/
def matchesSearch (toLowerCase : String → String) (searchValue : String) (emp : Employee) :
    Bool :=
  let query := toLowerCase searchValue
  let nameStr := toLowerCase (interpolate emp.vorname_text ++ " " ++
    interpolate emp.nachname_text ++ " " ++ interpolate emp.unternehmen_mail_text ++ " " ++
    interpolate emp.personalnummer_text)
  JSString.includes nameStr query

/-- `matchesDept` (line 94): `!deptId || emp.kostenstelle_custom_kostenstelle === deptId`. -/
def matchesDept (deptId : String) (emp : Employee) : Bool :=
  decide (deptId = "") || decide (emp.kostenstelle_custom_kostenstelle = some deptId)

/-- `!emp.austritt_date || new Date(emp.austritt_date) > now` (line 97);
`parseDate` is `new Date(..)` as a time value, `none` for an invalid date. -/
def isActive (parseDate : String → Option Int) (now : Int) (emp : Employee) : Bool :=
  match emp.austritt_date with
  | none => true
  | some d =>
    if d = "" then true
    else
      match parseDate d with
      | some t => decide (t > now)
      | none => false

/-- The list that `runFilters` (lines 86-107) hands to `renderEmployeeTable`, for
the values of the three inputs and one reading `now` of the clock. -/
def runFilters (toLowerCase : String → String) (parseDate : String → Option Int) (now : Int)
    (employees : List Employee) (searchValue deptId status : String) : List Employee :=
  employees.filter fun emp =>
    let active := isActive parseDate now emp
    let matchesStatus := if status = "active" then active
      else if status = "inactive" then !active else true
    matchesSearch toLowerCase searchValue emp && matchesDept deptId emp && matchesStatus

end EmployeeDirectory

/-! Personnel management, `digital-personnel-management-system/script.js`. -/

namespace PersonnelManagement

/-- A `gen_mitarbeiter` object as read by the upload. -/
structure Employee where
  _id : String
  dokumente_list_custom_dms_dokumente : Option (List String)
  deriving DecidableEq, Repr

/-- The answer of an `api.create` call. -/
structure CreateResult where
  success : Bool
  _id : String
  deriving DecidableEq, Repr

/-- One pending file together with the answers the API gives while it is
processed: to the creation of the document and to that of its version. -/
structure PendingFile where
  name : String
  docResult : CreateResult
  versionResult : CreateResult
  deriving DecidableEq, Repr

/-- The API calls made by `handleFileUpload`. -/
inductive ApiCall where
  | createDokument (caption : String)
  | createDokumentversion (dateiname : String) (dokument : String)
  | updateDokument (id : String) (neuesteversion : String)
  | updateMitarbeiter (id : String) (dokumente : List String)
  deriving DecidableEq, Repr

/-- The loop of `handleFileUpload` (lines 178-213): the calls made, and `false`
when the loop ended with a `TypeError` because no employee has the selected id.
The answers of the `api.update` calls are awaited and not read. -/
def uploadLoop (employees : List Employee) (selectedEmployeeId : String) :
    List PendingFile → List ApiCall × Bool
  | [] => ([], true)
  | file :: rest =>
    let c1 := ApiCall.createDokument file.name
    if file.docResult.success then
      let newDocId := file.docResult._id
      let c2 := ApiCall.createDokumentversion file.name newDocId
      if file.versionResult.success then
        let c3 := ApiCall.updateDokument newDocId file.versionResult._id
        match employees.find? fun e => decide (e._id = selectedEmployeeId) with
        | none => ([c1, c2, c3], false)
        | some employee =>
          let currentDocs := employee.dokumente_list_custom_dms_dokumente.getD []
          let c4 := ApiCall.updateMitarbeiter selectedEmployeeId (currentDocs ++ [newDocId])
          let r := uploadLoop employees selectedEmployeeId rest
          (c1 :: c2 :: c3 :: c4 :: r.1, r.2)
      else
        let r := uploadLoop employees selectedEmployeeId rest
        (c1 :: c2 :: r.1, r.2)
    else
      let r := uploadLoop employees selectedEmployeeId rest
      (c1 :: r.1, r.2)

/-- `handleFileUpload` (lines 171-222) with `this.employees = employees`: nothing
happens without pending files or without a selected employee. -/
def handleFileUpload (employees : List Employee) (selectedEmployeeId : Option String)
    (pendingFiles : Option (List PendingFile)) : List ApiCall × Bool :=
  match pendingFiles, selectedEmployeeId with
  | some files, some id => if id = "" then ([], true) else uploadLoop employees id files
  | _, _ => ([], true)

/-- The document lists sent with the employee-link updates, in call order. -/
def employeeLinkUpdates (calls : List ApiCall) : List (List String) :=
  calls.filterMap fun c =>
    match c with
    | ApiCall.updateMitarbeiter _ dokumente => some dokumente
    | _ => none

end PersonnelManagement

namespace ServicePortal

/-! ## Auxiliary facts -/

theorem getElem?_saveNewSequence (st : State) (j : Nat) :
    (saveNewSequence st)[j]? = st.stops[j]?.map fun stop =>
      if stop.sequence_number ≠ some ((j : Int) + 1) then
        some { id := stop._id, sequence_number := (j : Int) + 1 }
      else none := by
  simp only [saveNewSequence, List.getElem?_map, List.getElem?_enum, Option.map_map]
  rfl

theorem length_saveNewSequence (st : State) :
    (saveNewSequence st).length = st.stops.length := by
  simp [saveNewSequence]

theorem getElem?_reinsert {α : Type} (xs : List α) (s t i : Nat) (hs : s < xs.length)
    (ht : t < xs.length) (hi : i < xs.length) :
    ((xs.eraseIdx s).take t ++ xs[s] :: (xs.eraseIdx s).drop t)[newIndex s t i]? = some xs[i] := by
  have hE : (xs.eraseIdx s).length = xs.length - 1 := List.length_eraseIdx_of_lt hs
  have hT : ((xs.eraseIdx s).take t).length = t := by
    rw [List.length_take, hE]; omega
  unfold newIndex
  by_cases h1 : i = s
  · subst h1
    rw [if_pos rfl, List.getElem?_append_right (by omega), hT]
    simp
  · rw [if_neg h1]
    by_cases h2 : s < i ∧ i ≤ t
    · rw [if_pos h2, List.getElem?_append_left (by omega), List.getElem?_take_of_lt (by omega),
        List.getElem?_eraseIdx_of_ge _ _ _ (by omega)]
      have : i - 1 + 1 = i := by omega
      rw [this, List.getElem?_eq_getElem hi]
    · rw [if_neg h2]
      by_cases h3 : t ≤ i ∧ i < s
      · rw [if_pos h3, List.getElem?_append_right (by omega), hT]
        have : i + 1 - t = (i - t) + 1 := by omega
        rw [this, List.getElem?_cons_succ, List.getElem?_drop,
          List.getElem?_eraseIdx_of_lt _ _ _ (by omega)]
        have : t + (i - t) = i := by omega
        rw [this, List.getElem?_eq_getElem hi]
      · rw [if_neg h3]
        by_cases h4 : i < t
        · rw [List.getElem?_append_left (by omega), List.getElem?_take_of_lt (by omega),
            List.getElem?_eraseIdx_of_lt _ _ _ (by omega), List.getElem?_eq_getElem hi]
        · rw [List.getElem?_append_right (by omega), hT]
          have : i - t = (i - t - 1) + 1 := by omega
          rw [this, List.getElem?_cons_succ, List.getElem?_drop,
            List.getElem?_eraseIdx_of_ge _ _ _ (by omega)]
          have : t + (i - t - 1) + 1 = i := by omega
          rw [this, List.getElem?_eq_getElem hi]

theorem splice_remove_one {α : Type} (xs : List α) (s : Nat) (hs : s < xs.length) :
    splice xs s 1 [] = ([xs[s]], xs.eraseIdx s) := by
  have h1 : min s xs.length = s := by omega
  have h2 : min 1 (xs.length - s) = 1 := by omega
  simp only [splice, h1, h2, List.append_nil, List.eraseIdx_eq_take_drop_succ]
  congr 1
  rw [List.take_one, List.head?_drop, List.getElem?_eq_getElem hs]
  rfl

theorem splice_insert_one {α : Type} (ys : List α) (t : Nat) (m : α) (ht : t ≤ ys.length) :
    splice ys t 0 [m] = ([], ys.take t ++ m :: ys.drop t) := by
  have h1 : min t ys.length = t := by omega
  simp [splice, h1]

/-- The drop handler on valid, distinct indices: the item is cut out and put
back in, and the reconciliation runs on the new list. -/
theorem handleDrop_valid (st : State) (s t : Nat) (hd : st.draggedIndex = some s)
    (hs : s < st.stops.length) (ht : t < st.stops.length) (hne : s ≠ t) :
    handleDrop st t =
      some ({ st with stops := (st.stops.eraseIdx s).take t ++ st.stops[s] :: (st.stops.eraseIdx s).drop t },
        saveNewSequence { st with stops := (st.stops.eraseIdx s).take t ++ st.stops[s] :: (st.stops.eraseIdx s).drop t }) := by
  have hlen : t ≤ (st.stops.eraseIdx s).length := by
    rw [List.length_eraseIdx_of_lt hs]; omega
  have hne' : ¬ (some s = some t) := by simpa using hne
  simp only [handleDrop, hd, hne', if_false, Option.getD_some, splice_remove_one _ _ hs,
    List.head?_cons, splice_insert_one _ _ _ hlen]

theorem eraseIdx_reinsert {α : Type} (ys : List α) (t : Nat) (m : α) (ht : t ≤ ys.length) :
    (ys.take t ++ m :: ys.drop t).eraseIdx t = ys := by
  have hT : (ys.take t).length = t := by rw [List.length_take]; omega
  rw [List.eraseIdx_append_of_length_le (by omega), hT, Nat.sub_self]
  simp

theorem length_reinsert {α : Type} (xs : List α) (s t : Nat) (hs : s < xs.length)
    (ht : t < xs.length) :
    ((xs.eraseIdx s).take t ++ xs[s] :: (xs.eraseIdx s).drop t).length = xs.length := by
  have hE : (xs.eraseIdx s).length = xs.length - 1 := List.length_eraseIdx_of_lt hs
  simp only [List.length_append, List.length_take, List.length_cons, List.length_drop, hE]
  omega

theorem newIndex_self (s t : Nat) : newIndex s t s = t := by
  simp [newIndex]

theorem mem_issuedUpdates (st : State) (u : Update) :
    u ∈ issuedUpdates st ↔ ∃ (j : Nat) (stop : Stop), st.stops[j]? = some stop ∧
      stop.sequence_number ≠ some ((j : Int) + 1) ∧
      u = { id := stop._id, sequence_number := (j : Int) + 1 } := by
  simp only [issuedUpdates, List.mem_filterMap, id_eq, exists_eq_right]
  rw [List.mem_iff_getElem?]
  constructor
  · rintro ⟨j, hj⟩
    rw [getElem?_saveNewSequence] at hj
    cases hst : st.stops[j]? with
    | none => simp [hst] at hj
    | some stop =>
      simp only [hst, Option.map_some', Option.some.injEq] at hj
      split_ifs at hj with h
      exact ⟨j, stop, hst, h, (Option.some.inj hj).symm⟩
  · rintro ⟨j, stop, hst, h, rfl⟩
    refine ⟨j, ?_⟩
    rw [getElem?_saveNewSequence, hst]
    simp only [Option.map_some', if_pos h]

theorem issuedUpdates_ids_sublist (st : State) :
    ((issuedUpdates st).map Update.id).Sublist (st.stops.map Stop._id) := by
  have key : ∀ (l : List Stop) (k : Nat),
      (((l.enumFrom k).map fun (p : Nat × Stop) =>
        if p.2.sequence_number ≠ some ((p.1 : Int) + 1) then
          some ({ id := p.2._id, sequence_number := (p.1 : Int) + 1 } : Update)
        else none).filterMap id).map Update.id |>.Sublist (l.map Stop._id) := by
    intro l
    induction l with
    | nil => intro k; simp
    | cons a l ih =>
      intro k
      simp only [List.enumFrom_cons, List.map_cons]
      by_cases h : a.sequence_number ≠ some ((k : Int) + 1)
      · rw [if_pos h]
        simp only [List.filterMap_cons_some (id_eq _), List.map_cons]
        exact (ih (k + 1)).cons₂ _
      · rw [if_neg h]
        simp only [List.filterMap_cons_none (id_eq _)]
        exact (ih (k + 1)).cons _
  exact key st.stops 0

theorem applyUpdates_of_not_mem (us : List Update) (remote : Remote) (i : String)
    (h : i ∉ us.map Update.id) : applyUpdates remote us i = remote i := by
  induction us generalizing remote with
  | nil => rfl
  | cons u us ih =>
    simp only [List.map_cons, List.mem_cons, not_or] at h
    show applyUpdates (applyUpdate remote u) us i = remote i
    rw [ih _ h.2]
    simp [applyUpdate, h.1]

theorem applyUpdates_of_mem (us : List Update) (remote : Remote) (u : Update)
    (hn : (us.map Update.id).Nodup) (h : u ∈ us) :
    applyUpdates remote us u.id = some u.sequence_number := by
  induction us generalizing remote with
  | nil => cases h
  | cons v us ih =>
    simp only [List.map_cons, List.nodup_cons] at hn
    show applyUpdates (applyUpdate remote v) us u.id = some u.sequence_number
    rcases List.mem_cons.mp h with rfl | h'
    · rw [applyUpdates_of_not_mem _ _ _ hn.1]
      simp [applyUpdate]
    · exact ih _ hn.2 h'

theorem index_unique_of_nodup_ids (stops : List Stop) (hid : (stops.map Stop._id).Nodup)
    (i j : Nat) (a b : Stop) (ha : stops[i]? = some a) (hb : stops[j]? = some b)
    (hab : a._id = b._id) : i = j := by
  have hi : i < (stops.map Stop._id).length := by
    rw [List.length_map]; exact (List.getElem?_eq_some.mp ha).1
  have hj : j < (stops.map Stop._id).length := by
    rw [List.length_map]; exact (List.getElem?_eq_some.mp hb).1
  apply (@List.Nodup.getElem_inj_iff _ _ hid i hi j hj).mp
  have h1 : (stops.map Stop._id)[i]? = some a._id := by simp [ha]
  have h2 : (stops.map Stop._id)[j]? = some b._id := by simp [hb]
  rw [List.getElem?_eq_getElem hi] at h1
  rw [List.getElem?_eq_getElem hj] at h2
  rw [Option.some.inj h1, Option.some.inj h2, hab]

theorem newIndex_lt (s t i n : Nat) (hs : s < n) (ht : t < n) (hi : i < n) :
    newIndex s t i < n := by
  unfold newIndex
  split_ifs <;> omega

theorem newIndex_ne_iff (s t i : Nat) (hne : s ≠ t) :
    newIndex s t i ≠ i ↔ min s t ≤ i ∧ i ≤ max s t := by
  unfold newIndex
  split_ifs <;> omega

theorem newIndex_surjective (s t j n : Nat) (hs : s < n) (ht : t < n) (hj : j < n) :
    ∃ i, i < n ∧ newIndex s t i = j := by
  refine ⟨newIndex t s j, newIndex_lt t s j n ht hs hj, ?_⟩
  unfold newIndex
  split_ifs <;> omega

theorem sortInsert_perm {α : Type} (cmp : α → α → Int) (a : α) (l : List α) :
    (sortInsert cmp a l).Perm (a :: l) := by
  induction l with
  | nil => exact List.Perm.refl _
  | cons b l ih =>
    unfold sortInsert
    split_ifs
    · exact List.Perm.refl _
    · exact (ih.cons b).trans (List.Perm.swap a b l)

theorem jsSort_perm {α : Type} (cmp : α → α → Int) (l : List α) : (jsSort cmp l).Perm l := by
  induction l with
  | nil => exact List.Perm.refl _
  | cons a l ih => exact (sortInsert_perm cmp a _).trans (ih.cons a)

theorem sortInsert_compareFn_pairwise (a : Stop) (l : List Stop)
    (h : l.Pairwise fun x y => x.sequence_number.getD 0 ≤ y.sequence_number.getD 0) :
    (sortInsert compareFn a l).Pairwise
      fun x y => x.sequence_number.getD 0 ≤ y.sequence_number.getD 0 := by
  induction l with
  | nil => simp [sortInsert]
  | cons b l ih =>
    obtain ⟨hb, hl⟩ := List.pairwise_cons.mp h
    unfold sortInsert
    split_ifs with hc
    · have hab : a.sequence_number.getD 0 ≤ b.sequence_number.getD 0 := by
        unfold compareFn at hc; omega
      refine List.pairwise_cons.mpr ⟨?_, h⟩
      intro y hy
      rcases List.mem_cons.mp hy with rfl | hy'
      · exact hab
      · exact le_trans hab (hb y hy')
    · have hba : b.sequence_number.getD 0 ≤ a.sequence_number.getD 0 := by
        unfold compareFn at hc; omega
      refine List.pairwise_cons.mpr ⟨?_, ih hl⟩
      intro y hy
      rcases List.mem_cons.mp ((sortInsert_perm compareFn a l).mem_iff.mp hy) with rfl | hy'
      · exact hba
      · exact hb y hy'

theorem jsSort_compareFn_pairwise (l : List Stop) :
    (jsSort compareFn l).Pairwise
      fun x y => x.sequence_number.getD 0 ≤ y.sequence_number.getD 0 := by
  induction l with
  | nil => exact List.Pairwise.nil
  | cons a l ih => exact sortInsert_compareFn_pairwise a _ ih

theorem sortInsert_compareFn_filter (k : Int) (a : Stop) (l : List Stop) :
    (sortInsert compareFn a l).filter (fun x => decide (x.sequence_number.getD 0 = k)) =
      (a :: l).filter (fun x => decide (x.sequence_number.getD 0 = k)) := by
  induction l with
  | nil => rfl
  | cons b l ih =>
    unfold sortInsert
    split_ifs with hc
    · rfl
    · have hne : a.sequence_number.getD 0 ≠ b.sequence_number.getD 0 := by
        unfold compareFn at hc; omega
      rw [List.filter_cons, ih]
      by_cases hbk : b.sequence_number.getD 0 = k
      · have hak : ¬ a.sequence_number.getD 0 = k := fun h => hne (h.trans hbk.symm)
        simp [List.filter_cons, hbk, hak]
      · simp [List.filter_cons, hbk]

theorem jsSort_compareFn_filter (k : Int) (l : List Stop) :
    (jsSort compareFn l).filter (fun x => decide (x.sequence_number.getD 0 = k)) =
      l.filter (fun x => decide (x.sequence_number.getD 0 = k)) := by
  induction l with
  | nil => rfl
  | cons a l ih =>
    show (sortInsert compareFn a (jsSort compareFn l)).filter _ = _
    rw [sortInsert_compareFn_filter, List.filter_cons, ih, List.filter_cons]

theorem loadStops_success (st : State) (res : Response) (hok : res.success = true) :
    loadStops st (some res) = { st with stops := jsSort compareFn res.data } := by
  simp [loadStops, hok]

/-! ## The move -/

/-- C1: on valid, distinct indices `handleDrop` stores the input list with the
element at `s` removed and reinserted at `t`: the length is kept, the element
formerly at `s` sits at index `t`, and taking it out again leaves the other
elements exactly as they are in the input without its element `s` (so they
keep their relative order; it is a reorder of one element, not a swap). -/
theorem handleDrop_single_element_reorder (st : State) (s t : Nat)
    (hd : st.draggedIndex = some s) (hs : s < st.stops.length) (ht : t < st.stops.length)
    (hne : s ≠ t) :
    ∃ st' calls, handleDrop st t = some (st', calls) ∧
      st'.stops = (st.stops.eraseIdx s).take t ++ st.stops[s] :: (st.stops.eraseIdx s).drop t ∧
      st'.stops.length = st.stops.length ∧
      st'.stops[t]? = some st.stops[s] ∧
      st'.stops.eraseIdx t = st.stops.eraseIdx s := by
  have hlen : t ≤ (st.stops.eraseIdx s).length := by
    rw [List.length_eraseIdx_of_lt hs]; omega
  refine ⟨_, _, handleDrop_valid st s t hd hs ht hne, rfl, ?_, ?_, ?_⟩
  · exact length_reinsert st.stops s t hs ht
  · have h := getElem?_reinsert st.stops s t s hs ht hs
    rwa [newIndex_self] at h
  · exact eraseIdx_reinsert _ t _ hlen

theorem handleDrop_single_element_reorder_witness :
    (dragging threeStops 2).draggedIndex = some 2 ∧
    ∃ st' calls, handleDrop (dragging threeStops 2) 0 = some (st', calls) ∧
      st'.stops = ((dragging threeStops 2).stops.eraseIdx 2).take 0 ++
        mkStop "C" (some 3) :: ((dragging threeStops 2).stops.eraseIdx 2).drop 0 ∧
      st'.stops.length = (dragging threeStops 2).stops.length ∧
      st'.stops[0]? = some (mkStop "C" (some 3)) ∧
      st'.stops.eraseIdx 0 = (dragging threeStops 2).stops.eraseIdx 2 :=
  ⟨rfl, handleDrop_single_element_reorder (dragging threeStops 2) 2 0 rfl (by decide) (by decide)
    (by decide)⟩

/-- C2, evaluated where the code departs from it: card 2 of `[A@1, B@2, C@3]` is
dropped on card 0.  The list becomes `[C, A, B]`, but the in-memory
`sequence_number` fields read `[3, 1, 2]`, not `[1, 2, 3]`; they still do after
the reconciliation has written `C=1, A=2, B=3` to the remote store, and after a
run of `saveNewSequence` in which every update succeeds. -/
theorem handleDrop_positions_stay_stale :
    (handleDrop (dragging threeStops 2) 0).map
        (fun r => (r.1.stops.map Stop._id, r.1.stops.map Stop.sequence_number)) =
      some (["C", "A", "B"], [some 3, some 1, some 2]) ∧
    (dragAndDrop ({ State.init with stops := threeStops }, remoteOf threeStops)
        (2, 0)).toOption.map
        (fun r => (r.1.stops.map Stop.sequence_number, r.1.stops.map fun stop => r.2 stop._id)) =
      some ([some 3, some 1, some 2], [some 1, some 2, some 3]) ∧
    (saveNewSequenceRun (fun _ => Outcome.resolved true)
        { State.init with stops := [mkStop "C" (some 3), mkStop "A" (some 1),
          mkStop "B" (some 2)] }).state.stops.map Stop.sequence_number =
      [some 3, some 1, some 2] := by
  decide

/-! ## Reconciliation -/

/-- C3: `saveNewSequence` builds one promise per stop, and the promise of the
stop at index `j` is a remote update exactly when the stop's stored
`sequence_number` differs from `j + 1`; that update carries the stop's id and
the new position `j + 1`.  A stop whose stored position is already `j + 1`
causes no remote write.  The updates issued are exactly those. -/
theorem saveNewSequence_updates_iff_changed (st : State) :
    (saveNewSequence st).length = st.stops.length ∧
    (∀ (j : Nat) (stop : Stop), st.stops[j]? = some stop →
      (stop.sequence_number ≠ some ((j : Int) + 1) →
        (saveNewSequence st)[j]? =
          some (some { id := stop._id, sequence_number := (j : Int) + 1 })) ∧
      (stop.sequence_number = some ((j : Int) + 1) → (saveNewSequence st)[j]? = some none)) ∧
    (∀ u, u ∈ issuedUpdates st ↔ ∃ (j : Nat) (stop : Stop), st.stops[j]? = some stop ∧
      stop.sequence_number ≠ some ((j : Int) + 1) ∧
      u = { id := stop._id, sequence_number := (j : Int) + 1 }) := by
  refine ⟨length_saveNewSequence st, ?_, mem_issuedUpdates st⟩
  intro j stop hst
  rw [getElem?_saveNewSequence, hst]
  constructor
  · intro h
    simp only [Option.map_some', if_pos h]
  · intro h
    simp only [Option.map_some', ne_eq, h, not_true_eq_false, if_false]

/-- C4: when the stop ids are pairwise distinct and every in-memory
`sequence_number` equals the remotely stored position, applying the updates
issued by one `saveNewSequence` call (all succeeding, in any order of
completion) leaves every stop with the remote position `index + 1`. -/
theorem saveNewSequence_remote_matches_local (st : State) (remote : Remote)
    (hid : (st.stops.map Stop._id).Nodup)
    (hrem : ∀ stop ∈ st.stops, remote stop._id = stop.sequence_number)
    (us : List Update) (hus : us.Perm (issuedUpdates st)) :
    ∀ (j : Nat) (stop : Stop), st.stops[j]? = some stop →
      applyUpdates remote us stop._id = some ((j : Int) + 1) := by
  intro j stop hst
  have hnd : (us.map Update.id).Nodup :=
    ((hus.map Update.id).nodup_iff).mpr ((issuedUpdates_ids_sublist st).nodup hid)
  by_cases h : stop.sequence_number ≠ some ((j : Int) + 1)
  · have hu : ({ id := stop._id, sequence_number := (j : Int) + 1 } : Update) ∈ us :=
      hus.mem_iff.mpr ((mem_issuedUpdates st _).mpr ⟨j, stop, hst, h, rfl⟩)
    exact applyUpdates_of_mem us remote _ hnd hu
  · have hseq : stop.sequence_number = some ((j : Int) + 1) := by simpa using h
    have hnot : stop._id ∉ us.map Update.id := by
      intro hmem
      obtain ⟨u, hu, hue⟩ := List.mem_map.mp hmem
      obtain ⟨k, stop', hk, hne, rfl⟩ := (mem_issuedUpdates st u).mp (hus.mem_iff.mp hu)
      have hkj : k = j := index_unique_of_nodup_ids st.stops hid k j stop' stop hk hst hue
      subst hkj
      rw [hst] at hk
      cases hk
      exact hne hseq
    rw [applyUpdates_of_not_mem us remote _ hnot, hrem stop (List.getElem?_mem hst), hseq]

theorem saveNewSequence_remote_matches_local_witness :
    (({ State.init with stops := [mkStop "C" (some 3), mkStop "A" (some 1), mkStop "B" (some 2)] } :
      State).stops.map Stop._id).Nodup ∧
    ∀ (j : Nat) (stop : Stop), ({ State.init with
        stops := [mkStop "C" (some 3), mkStop "A" (some 1), mkStop "B" (some 2)] } :
          State).stops[j]? = some stop →
      applyUpdates (remoteOf threeStops)
        [⟨"B", 3⟩, ⟨"C", 1⟩, ⟨"A", 2⟩] stop._id = some ((j : Int) + 1) :=
  ⟨by decide,
    saveNewSequence_remote_matches_local
      { State.init with stops := [mkStop "C" (some 3), mkStop "A" (some 1), mkStop "B" (some 2)] }
      (remoteOf threeStops) (by decide) (by decide) [⟨"B", 3⟩, ⟨"C", 1⟩, ⟨"A", 2⟩] (by decide)⟩

/-- C5, evaluated on the round trip that breaks it: `[A@1, B@2, C@3]` is
loaded, card 2 is dropped on card 0 and reconciled (remote `C=1, A=2, B=3`),
then card 0 is dropped on card 2.  Both drops return, the list is `[A, B, C]`
again, the second reconciliation compares against the stale in-memory
positions `1, 2, 3` and issues no update, and the remote store keeps
`A=2, B=3, C=1`. -/
theorem session_round_trip_leaves_remote_stale :
    (session ({ State.init with stops := threeStops }, remoteOf threeStops)
        [(2, 0), (0, 2)]).toOption.map
      (fun r => (r.1.stops, issuedUpdates r.1, threeStops.map fun stop => r.2 stop._id)) =
      some (threeStops, [], [some 2, some 3, some 1]) := by
  decide

/-- C6: on a list whose stored positions are `1..n` in list order, after a move
from `s` to `t` (valid, distinct) the stop formerly at index `i` sits in slot
`newIndex s t i`, and its promise there is a remote update exactly when `i`
lies in the closed range `[min s t, max s t]`, which is exactly when its slot
differs from `i`; outside the range no update is issued.  Every slot of the new
list holds one of the former stops. -/
theorem handleDrop_updates_exactly_span (st : State) (s t : Nat)
    (hd : st.draggedIndex = some s) (hs : s < st.stops.length) (ht : t < st.stops.length)
    (hne : s ≠ t)
    (hpos : ∀ (i : Nat) (stop : Stop), st.stops[i]? = some stop →
      stop.sequence_number = some ((i : Int) + 1)) :
    ∃ st' calls, handleDrop st t = some (st', calls) ∧
      st'.stops.length = st.stops.length ∧ calls.length = st.stops.length ∧
      (∀ (i : Nat) (stop : Stop), st.stops[i]? = some stop →
        st'.stops[newIndex s t i]? = some stop ∧
        (newIndex s t i ≠ i ↔ min s t ≤ i ∧ i ≤ max s t) ∧
        (min s t ≤ i ∧ i ≤ max s t → calls[newIndex s t i]? =
          some (some { id := stop._id, sequence_number := (newIndex s t i : Int) + 1 })) ∧
        (¬ (min s t ≤ i ∧ i ≤ max s t) → calls[newIndex s t i]? = some none)) ∧
      (∀ j, j < st.stops.length → ∃ i, i < st.stops.length ∧ newIndex s t i = j) := by
  have hlen := length_reinsert st.stops s t hs ht
  refine ⟨_, _, handleDrop_valid st s t hd hs ht hne, hlen, ?_, ?_, ?_⟩
  · rw [length_saveNewSequence]; exact hlen
  · intro i stop hst
    obtain ⟨hi, rfl⟩ := List.getElem?_eq_some.mp hst
    have hget := getElem?_reinsert st.stops s t i hs ht hi
    have hiff := newIndex_ne_iff s t i hne
    have hseq := hpos i _ hst
    refine ⟨hget, hiff, ?_, ?_⟩
    · intro hr
      rw [getElem?_saveNewSequence, hget]
      have hni : newIndex s t i ≠ i := hiff.mpr hr
      have : st.stops[i].sequence_number ≠ some ((newIndex s t i : Int) + 1) := by
        rw [hseq]
        intro h
        have := Option.some.inj h
        omega
      simp only [Option.map_some', if_pos this]
    · intro hr
      rw [getElem?_saveNewSequence, hget]
      have hni : newIndex s t i = i := by
        by_contra h
        exact hr (hiff.mp h)
      have : ¬ (st.stops[i].sequence_number ≠ some ((newIndex s t i : Int) + 1)) := by
        rw [hseq, hni]; simp
      simp only [Option.map_some', if_neg this]
  · intro j hj
    exact newIndex_surjective s t j _ hs ht hj

theorem handleDrop_updates_exactly_span_witness :
    (dragging fiveStops 3).draggedIndex = some 3 ∧
    ∃ st' calls, handleDrop (dragging fiveStops 3) 1 = some (st', calls) ∧
      st'.stops.length = (dragging fiveStops 3).stops.length ∧
      calls.length = (dragging fiveStops 3).stops.length ∧
      (∀ (i : Nat) (stop : Stop), (dragging fiveStops 3).stops[i]? = some stop →
        st'.stops[newIndex 3 1 i]? = some stop ∧
        (newIndex 3 1 i ≠ i ↔ min 3 1 ≤ i ∧ i ≤ max 3 1) ∧
        (min 3 1 ≤ i ∧ i ≤ max 3 1 → calls[newIndex 3 1 i]? =
          some (some { id := stop._id, sequence_number := (newIndex 3 1 i : Int) + 1 })) ∧
        (¬ (min 3 1 ≤ i ∧ i ≤ max 3 1) → calls[newIndex 3 1 i]? = some none)) ∧
      (∀ j, j < (dragging fiveStops 3).stops.length →
        ∃ i, i < (dragging fiveStops 3).stops.length ∧ newIndex 3 1 i = j) :=
  ⟨rfl, handleDrop_updates_exactly_span (dragging fiveStops 3) 3 1 rfl (by decide) (by decide)
    (by decide) (by
      intro i stop h
      have hi : i < 5 := (List.getElem?_eq_some.mp h).1
      interval_cases i <;> simp [dragging, handleDragStart, fiveStops] at h <;> subst h <;> rfl)⟩

/-- C7, as stated, fails: moving card 0 of the five stops `a..e` to slot 4 also
updates the stop originally at index 4 (`e`, from position 5 to 4), which is
not among the stops originally at indices 0, 1, 2, 3. -/
theorem handleDrop_five_counterexample :
    (handleDrop (dragging fiveStops 0) 4).map (fun r => (r.2.filterMap id).map Update.id)
      = some ["b", "c", "d", "e", "a"] ∧
    fiveStops[4]? = some (mkStop "e" (some 5)) ∧
    "e" ∉ (fiveStops.take 4).map Stop._id := by
  decide

/-- C7 (amended): for a collection of size 5 with stored positions 1..5, moving
the item at index 0 to index 4 yields the order `[b, c, d, e, a]` and updates
all five items: the moved item gets position 5 and each item originally at
index 1, 2, 3, 4 (the slots after the old one up to and including the new one)
moves up by one. -/
theorem handleDrop_five_updates_all (st : State) (a b c d e : Stop)
    (hd : st.draggedIndex = some 0) (hst : st.stops = [a, b, c, d, e])
    (ha : a.sequence_number = some 1) (hb : b.sequence_number = some 2)
    (hc : c.sequence_number = some 3) (hd4 : d.sequence_number = some 4)
    (he : e.sequence_number = some 5) :
    handleDrop st 4 = some ({ st with stops := [b, c, d, e, a] },
      [some ⟨b._id, 1⟩, some ⟨c._id, 2⟩, some ⟨d._id, 3⟩, some ⟨e._id, 4⟩, some ⟨a._id, 5⟩]) := by
  rw [handleDrop_valid st 0 4 hd (by simp [hst]) (by simp [hst]) (by decide)]
  simp [hst, saveNewSequence, List.enum, List.enumFrom, ha, hb, hc, hd4, he]

theorem handleDrop_five_updates_all_witness :
    (dragging fiveStops 0).draggedIndex = some 0 ∧
    handleDrop (dragging fiveStops 0) 4 = some ({ dragging fiveStops 0 with
        stops := [mkStop "b" (some 2), mkStop "c" (some 3), mkStop "d" (some 4),
          mkStop "e" (some 5), mkStop "a" (some 1)] },
      [some ⟨"b", 1⟩, some ⟨"c", 2⟩, some ⟨"d", 3⟩, some ⟨"e", 4⟩, some ⟨"a", 5⟩]) :=
  ⟨rfl, handleDrop_five_updates_all (dragging fiveStops 0) (mkStop "a" (some 1))
    (mkStop "b" (some 2)) (mkStop "c" (some 3)) (mkStop "d" (some 4)) (mkStop "e" (some 5))
    rfl rfl rfl rfl rfl rfl rfl⟩

/-- C8: for three stops `[A, B, C]` stored at positions 1, 2, 3, dropping card 2
on card 0 yields the local order `[C, A, B]`, and the reconciliation issues
exactly the updates `(C, 1)`, `(A, 2)`, `(B, 3)`: all three stops are updated. -/
theorem handleDrop_three_head_insertion (st : State) (A B C : Stop)
    (hd : st.draggedIndex = some 2) (hst : st.stops = [A, B, C])
    (hA : A.sequence_number = some 1) (hB : B.sequence_number = some 2)
    (hC : C.sequence_number = some 3) :
    handleDrop st 0 = some ({ st with stops := [C, A, B] },
      [some ⟨C._id, 1⟩, some ⟨A._id, 2⟩, some ⟨B._id, 3⟩]) ∧
    issuedUpdates { st with stops := [C, A, B] } = [⟨C._id, 1⟩, ⟨A._id, 2⟩, ⟨B._id, 3⟩] := by
  rw [handleDrop_valid st 2 0 hd (by simp [hst]) (by simp [hst]) (by decide)]
  simp [hst, issuedUpdates, saveNewSequence, List.enum, List.enumFrom, hA, hB, hC]

theorem handleDrop_three_head_insertion_witness :
    (dragging threeStops 2).draggedIndex = some 2 ∧
    handleDrop (dragging threeStops 2) 0 = some ({ dragging threeStops 2 with
        stops := [mkStop "C" (some 3), mkStop "A" (some 1), mkStop "B" (some 2)] },
      [some ⟨"C", 1⟩, some ⟨"A", 2⟩, some ⟨"B", 3⟩]) ∧
    issuedUpdates { dragging threeStops 2 with
        stops := [mkStop "C" (some 3), mkStop "A" (some 1), mkStop "B" (some 2)] } =
      [⟨"C", 1⟩, ⟨"A", 2⟩, ⟨"B", 3⟩] :=
  ⟨rfl, handleDrop_three_head_insertion (dragging threeStops 2) (mkStop "A" (some 1))
    (mkStop "B" (some 2)) (mkStop "C" (some 3)) rfl rfl rfl rfl rfl⟩

/-! ## Loading -/

/-- C9: the list that a successful `loadStops` stores is the fetched data
rearranged in ascending order of `sequence_number`, a missing one counting as
0: for all `i < j` the stop at `i` has a position at most that of the stop at
`j`. -/
theorem loadStops_sorted_ascending (st : State) (res : Response) (hok : res.success = true) :
    (loadStops st (some res)).stops.Perm res.data ∧
    ∀ (i j : Nat) (a b : Stop), i < j →
      (loadStops st (some res)).stops[i]? = some a →
      (loadStops st (some res)).stops[j]? = some b →
      a.sequence_number.getD 0 ≤ b.sequence_number.getD 0 := by
  rw [loadStops_success st res hok]
  refine ⟨jsSort_perm compareFn res.data, ?_⟩
  intro i j a b hij ha hb
  obtain ⟨hi, rfl⟩ := List.getElem?_eq_some.mp ha
  obtain ⟨hj, rfl⟩ := List.getElem?_eq_some.mp hb
  exact List.pairwise_iff_getElem.mp (jsSort_compareFn_pairwise res.data) i j hi hj hij

theorem loadStops_sorted_ascending_witness :
    (⟨true, [mkStop "a" (some 2), mkStop "b" none, mkStop "c" (some 1)]⟩ : Response).success
      = true ∧
    (loadStops State.init
      (some ⟨true, [mkStop "a" (some 2), mkStop "b" none, mkStop "c" (some 1)]⟩)).stops.Perm
      [mkStop "a" (some 2), mkStop "b" none, mkStop "c" (some 1)] ∧
    ∀ (i j : Nat) (a b : Stop), i < j →
      (loadStops State.init
        (some ⟨true, [mkStop "a" (some 2), mkStop "b" none, mkStop "c" (some 1)]⟩)).stops[i]?
          = some a →
      (loadStops State.init
        (some ⟨true, [mkStop "a" (some 2), mkStop "b" none, mkStop "c" (some 1)]⟩)).stops[j]?
          = some b →
      a.sequence_number.getD 0 ≤ b.sequence_number.getD 0 :=
  ⟨rfl, loadStops_sorted_ascending State.init
    ⟨true, [mkStop "a" (some 2), mkStop "b" none, mkStop "c" (some 1)]⟩ rfl⟩

/-- C10: the load sort is stable.  Two stops that compare equal (equal
`sequence_number`, a missing one counting as 0) and occur in this order in the
fetched data occur in the same order in `state.stops`; more precisely the
stops of any one position appear in `state.stops` exactly as in the input.
The input `[a@2, b@1, c@1]` yields `[b, c, a]`. -/
theorem loadStops_stable (st : State) (res : Response) (hok : res.success = true) :
    (∀ (a b : Stop), compareFn a b = 0 → [a, b].Sublist res.data →
      [a, b].Sublist (loadStops st (some res)).stops) ∧
    (∀ k : Int,
      (loadStops st (some res)).stops.filter (fun x => decide (x.sequence_number.getD 0 = k)) =
        res.data.filter (fun x => decide (x.sequence_number.getD 0 = k))) ∧
    (loadStops st (some ⟨true, [mkStop "a" (some 2), mkStop "b" (some 1),
        mkStop "c" (some 1)]⟩)).stops =
      [mkStop "b" (some 1), mkStop "c" (some 1), mkStop "a" (some 2)] := by
  rw [loadStops_success st res hok]
  refine ⟨?_, fun k => jsSort_compareFn_filter k res.data, ?_⟩
  swap
  · show jsSort compareFn _ = _
    decide
  intro a b hab hsub
  have hkey : b.sequence_number.getD 0 = a.sequence_number.getD 0 := by
    unfold compareFn at hab; omega
  have h1 := hsub.filter (fun x => decide (x.sequence_number.getD 0 = a.sequence_number.getD 0))
  rw [← jsSort_compareFn_filter _ res.data] at h1
  have h2 : [a, b].filter (fun x => decide (x.sequence_number.getD 0 = a.sequence_number.getD 0))
      = [a, b] := by
    simp [List.filter_cons, hkey]
  rw [h2] at h1
  exact h1.trans (List.filter_sublist _)

theorem loadStops_stable_witness :
    (⟨true, [mkStop "a" (some 2), mkStop "b" (some 1), mkStop "c" (some 1)]⟩ : Response).success
      = true ∧
    (∀ (a b : Stop), compareFn a b = 0 →
      [a, b].Sublist [mkStop "a" (some 2), mkStop "b" (some 1), mkStop "c" (some 1)] →
      [a, b].Sublist (loadStops State.init (some ⟨true, [mkStop "a" (some 2),
        mkStop "b" (some 1), mkStop "c" (some 1)]⟩)).stops) ∧
    (∀ k : Int,
      (loadStops State.init (some ⟨true, [mkStop "a" (some 2), mkStop "b" (some 1),
          mkStop "c" (some 1)]⟩)).stops.filter
            (fun x => decide (x.sequence_number.getD 0 = k)) =
        [mkStop "a" (some 2), mkStop "b" (some 1), mkStop "c" (some 1)].filter
          (fun x => decide (x.sequence_number.getD 0 = k))) ∧
    (loadStops State.init (some ⟨true, [mkStop "a" (some 2), mkStop "b" (some 1),
        mkStop "c" (some 1)]⟩)).stops =
      [mkStop "b" (some 1), mkStop "c" (some 1), mkStop "a" (some 2)] :=
  ⟨rfl, loadStops_stable State.init
    ⟨true, [mkStop "a" (some 2), mkStop "b" (some 1), mkStop "c" (some 1)]⟩ rfl⟩

/-! ## Frame properties of load and move -/

theorem splice_insert_one_clamped {α : Type} (ys : List α) (t : Nat) (m : α) :
    splice ys t 0 [m] = ([], ys.take t ++ m :: ys.drop t) := by
  by_cases ht : t ≤ ys.length
  · exact splice_insert_one ys t m ht
  · have h1 : min t ys.length = ys.length := by omega
    have h2 : ys.length ≤ t := by omega
    simp [splice, h1, List.take_of_length_le h2, List.drop_of_length_le h2]

/-- The drop handler whenever the dragged index is valid and differs from the
target, the target being in range or not. -/
theorem handleDrop_source_valid (st : State) (s t : Nat) (hd : st.draggedIndex = some s)
    (hs : s < st.stops.length) (hne : s ≠ t) :
    handleDrop st t =
      some ({ st with stops := (st.stops.eraseIdx s).take t ++ st.stops[s] :: (st.stops.eraseIdx s).drop t },
        saveNewSequence { st with stops := (st.stops.eraseIdx s).take t ++ st.stops[s] :: (st.stops.eraseIdx s).drop t }) := by
  have hne' : ¬ (some s = some t) := by simpa using hne
  simp only [handleDrop, hd, hne', if_false, Option.getD_some, splice_remove_one _ _ hs,
    List.head?_cons, splice_insert_one_clamped]

theorem handleDrop_same_index (st : State) (i : Nat) (hd : st.draggedIndex = some i) :
    handleDrop st i = some (st, []) := by
  simp [handleDrop, hd]

theorem eraseIdx_perm {α : Type} (xs : List α) (s : Nat) (hs : s < xs.length) :
    (xs[s] :: xs.eraseIdx s).Perm xs := by
  have h : xs = xs.take s ++ xs[s] :: xs.drop (s + 1) := by
    rw [← List.drop_eq_getElem_cons hs, List.take_append_drop]
  rw [List.eraseIdx_eq_take_drop_succ]
  exact (List.perm_middle.symm).trans (h ▸ List.Perm.refl _)

theorem reinsert_perm {α : Type} (xs : List α) (s t : Nat) (hs : s < xs.length) :
    ((xs.eraseIdx s).take t ++ xs[s] :: (xs.eraseIdx s).drop t).Perm xs := by
  refine List.perm_middle.trans (List.Perm.trans ?_ (eraseIdx_perm xs s hs))
  rw [List.take_append_drop]

/-- C11: a successful `loadStops` does not rewrite positions: `state.stops` is a
permutation of the fetched stops (same length, same stops with the same
multiplicity, each stop with all its fields, `sequence_number` included), also
when the fetched positions have gaps or duplicates. -/
theorem loadStops_keeps_stops (st : State) (res : Response) (hok : res.success = true) :
    (loadStops st (some res)).stops.Perm res.data ∧
    (loadStops st (some res)).stops.length = res.data.length ∧
    (∀ stop : Stop, (loadStops st (some res)).stops.count stop = res.data.count stop) ∧
    ((loadStops st (some res)).stops.map Stop.sequence_number).Perm
      (res.data.map Stop.sequence_number) := by
  rw [loadStops_success st res hok]
  have hp : (jsSort compareFn res.data).Perm res.data := jsSort_perm compareFn res.data
  exact ⟨hp, hp.length_eq, fun stop => hp.count_eq stop, hp.map _⟩

theorem loadStops_keeps_stops_witness :
    (⟨true, [mkStop "a" (some 7), mkStop "b" (some 2), mkStop "c" (some 7), mkStop "d" none]⟩ :
      Response).success = true ∧
    (loadStops State.init (some ⟨true, [mkStop "a" (some 7), mkStop "b" (some 2),
      mkStop "c" (some 7), mkStop "d" none]⟩)).stops.Perm
        [mkStop "a" (some 7), mkStop "b" (some 2), mkStop "c" (some 7), mkStop "d" none] ∧
    (loadStops State.init (some ⟨true, [mkStop "a" (some 7), mkStop "b" (some 2),
      mkStop "c" (some 7), mkStop "d" none]⟩)).stops.length =
        [mkStop "a" (some 7), mkStop "b" (some 2), mkStop "c" (some 7), mkStop "d" none].length ∧
    (∀ stop : Stop, (loadStops State.init (some ⟨true, [mkStop "a" (some 7),
      mkStop "b" (some 2), mkStop "c" (some 7), mkStop "d" none]⟩)).stops.count stop =
        [mkStop "a" (some 7), mkStop "b" (some 2), mkStop "c" (some 7),
          mkStop "d" none].count stop) ∧
    ((loadStops State.init (some ⟨true, [mkStop "a" (some 7), mkStop "b" (some 2),
      mkStop "c" (some 7), mkStop "d" none]⟩)).stops.map Stop.sequence_number).Perm
        ([mkStop "a" (some 7), mkStop "b" (some 2), mkStop "c" (some 7),
          mkStop "d" none].map Stop.sequence_number) :=
  ⟨rfl, loadStops_keeps_stops State.init
    ⟨true, [mkStop "a" (some 7), mkStop "b" (some 2), mkStop "c" (some 7), mkStop "d" none]⟩ rfl⟩

/-- C12: a drop of card `i` on itself is a no-op, for every index `i` (valid
ones included): `handleDrop` returns early, the whole state (order, content
and position values of `state.stops` included) is the input state, and no
promise is built, so no persistence call is issued. -/
theorem handleDrop_same_index_noop (st : State) (i : Nat) (hd : st.draggedIndex = some i) :
    ∃ st' calls, handleDrop st i = some (st', calls) ∧ st' = st ∧ st'.stops = st.stops ∧
      st'.stops.map Stop.sequence_number = st.stops.map Stop.sequence_number ∧
      calls = [] ∧ calls.filterMap id = [] := by
  exact ⟨st, [], handleDrop_same_index st i hd, rfl, rfl, rfl, rfl, rfl⟩

theorem handleDrop_same_index_noop_witness :
    (dragging threeStops 1).draggedIndex = some 1 ∧
    ∃ st' calls, handleDrop (dragging threeStops 1) 1 = some (st', calls) ∧
      st' = dragging threeStops 1 ∧ st'.stops = (dragging threeStops 1).stops ∧
      st'.stops.map Stop.sequence_number =
        (dragging threeStops 1).stops.map Stop.sequence_number ∧
      calls = [] ∧ calls.filterMap id = [] :=
  ⟨rfl, handleDrop_same_index_noop (dragging threeStops 1) 1 rfl⟩

/-- C20: a move keeps the stops: on valid indices `s`, `t` (equal or not) the
list stored by `handleDrop` has the same length and is a permutation of the
input list, so every stop is kept with its `_id` and all other fields and
only the order changes; the other fields of `state` are kept too. -/
theorem handleDrop_keeps_stops (st : State) (s t : Nat) (hd : st.draggedIndex = some s)
    (hs : s < st.stops.length) (ht : t < st.stops.length) :
    ∃ st' calls, handleDrop st t = some (st', calls) ∧
      st'.stops.Perm st.stops ∧ st'.stops.length = st.stops.length ∧
      (st'.stops.map Stop._id).Perm (st.stops.map Stop._id) ∧
      (∀ stop : Stop, st'.stops.count stop = st.stops.count stop) ∧
      st'.selectedTourId = st.selectedTourId ∧ st'.selectedStopId = st.selectedStopId := by
  by_cases hne : s = t
  · subst hne
    exact ⟨st, [], handleDrop_same_index st s hd, List.Perm.refl _, rfl, List.Perm.refl _,
      fun _ => rfl, rfl, rfl⟩
  · have hp := reinsert_perm st.stops s t hs
    exact ⟨_, _, handleDrop_valid st s t hd hs ht hne, hp, hp.length_eq, hp.map _,
      fun stop => hp.count_eq stop, rfl, rfl⟩

theorem handleDrop_keeps_stops_witness :
    (dragging fiveStops 3).draggedIndex = some 3 ∧
    ∃ st' calls, handleDrop (dragging fiveStops 3) 1 = some (st', calls) ∧
      st'.stops.Perm (dragging fiveStops 3).stops ∧
      st'.stops.length = (dragging fiveStops 3).stops.length ∧
      (st'.stops.map Stop._id).Perm ((dragging fiveStops 3).stops.map Stop._id) ∧
      (∀ stop : Stop, st'.stops.count stop = (dragging fiveStops 3).stops.count stop) ∧
      st'.selectedTourId = (dragging fiveStops 3).selectedTourId ∧
      st'.selectedStopId = (dragging fiveStops 3).selectedStopId :=
  ⟨rfl, handleDrop_keeps_stops (dragging fiveStops 3) 3 1 rfl (by decide) (by decide)⟩

/-! ## Indices out of range -/

theorem handleDrop_source_out_of_range (st : State) (s t : Nat)
    (hd : st.draggedIndex = some s) (hs : st.stops.length ≤ s) (hne : s ≠ t) :
    handleDrop st t = none := by
  have hne' : ¬ (some s = some t) := by simpa using hne
  have h1 : min s st.stops.length = st.stops.length := by omega
  simp [handleDrop, hd, hne', splice, h1]

theorem handleDrop_null_source (st : State) (x : Stop) (rest : List Stop) (t : Nat)
    (hd : st.draggedIndex = none) (hst : st.stops = x :: rest) :
    handleDrop st t =
      some ({ st with stops := rest.take t ++ x :: rest.drop t },
        saveNewSequence { st with stops := rest.take t ++ x :: rest.drop t }) := by
  have h := splice_remove_one st.stops 0 (by simp [hst])
  simp only [hst, List.getElem_cons_zero, List.eraseIdx_cons_zero] at h
  simp only [handleDrop, hd, Option.getD_none, hst, h, List.head?_cons,
    splice_insert_one_clamped]
  simp

theorem splice_map {α β : Type} (f : α → β) (xs : List α) (start deleteCount : Nat)
    (items : List α) :
    splice (xs.map f) start deleteCount (items.map f) =
      ((splice xs start deleteCount items).1.map f,
        (splice xs start deleteCount items).2.map f) := by
  simp [splice, List.map_take, List.map_drop]

theorem definedStops_map_some (stops : List Stop) : definedStops (stops.map some) = some stops := by
  induction stops with
  | nil => rfl
  | cons stop rest ih => simp [definedStops, ih]

theorem definedStops_of_mem_none (xs : List (Option Stop)) (h : none ∈ xs) :
    definedStops xs = none := by
  induction xs with
  | nil => cases h
  | cons x rest ih =>
    cases x with
    | none => rfl
    | some stop =>
      have h' : none ∈ rest := by
        rcases List.mem_cons.mp h with h1 | h1
        · cases h1
        · exact h1
      simp [definedStops, ih h']

/-- Whenever `handleDrop` returns, the handler on the raw array leaves the same
state and builds the same promises. -/
theorem handleDropRaw_of_handleDrop (st : State) (t : Nat) (st' : State)
    (calls : List (Option Update)) (h : handleDrop st t = some (st', calls)) :
    handleDropRaw st t = (st'.toRaw, some calls) := by
  unfold handleDrop at h
  unfold handleDropRaw
  by_cases hd : st.draggedIndex = some t
  · simp only [hd, if_true, Option.some.injEq, Prod.mk.injEq] at h ⊢
    rw [← h.1, ← h.2]
    exact ⟨rfl, rfl⟩
  · simp only [hd, if_false] at h ⊢
    have hs := splice_map some st.stops (st.draggedIndex.getD 0) 1 []
    simp only [List.map_nil] at hs
    rw [hs]
    cases hr : (splice st.stops (st.draggedIndex.getD 0) 1 []).1 with
    | nil => simp [hr] at h
    | cons m rest =>
      simp only [hr, List.head?_cons, Option.some.injEq, Prod.mk.injEq] at h
      have hi := splice_map some (splice st.stops (st.draggedIndex.getD 0) 1 []).2 t 0 [m]
      simp only [List.map_cons, List.map_nil] at hi
      have hj : (some (some m) : Option (Option Stop)).bind id = some m := rfl
      simp only [List.map_cons, List.head?_cons, Option.join, hj, hi, definedStops_map_some]
      rw [← h.1, ← h.2]
      rfl

/-- When the dragged index is past the end and differs from the target, the
handler stores the array with `undefined` inserted at the target slot and
throws before `saveNewSequence`. -/
theorem handleDropRaw_source_out_of_range (st : State) (s t : Nat)
    (hd : st.draggedIndex = some s) (hs : st.stops.length ≤ s) (hne : s ≠ t) :
    handleDropRaw st t =
      ({ st.toRaw with
          stops := (st.stops.map some).take t ++ none :: (st.stops.map some).drop t }, none) := by
  have hne' : ¬ (some s = some t) := by simpa using hne
  have h1 : min s st.stops.length = st.stops.length := by omega
  have hsp : splice (st.stops.map some) s 1 [] = ([], st.stops.map some) := by
    simp [splice, h1]
  have hmem : none ∈ (st.stops.map some).take t ++ none :: (st.stops.map some).drop t := by
    simp
  have hj : ((none : Option (Option Stop)).bind fun a => id a) = none := rfl
  simp only [handleDropRaw, hd, hne', if_false, Option.getD_some, hsp, List.head?_nil,
    Option.join, hj, splice_insert_one_clamped, definedStops_of_mem_none _ hmem]

/-- C13, evaluated where the code departs from it.  With three stops and the
dragged index 5 (past the end), a drop on card 0 stores
`[undefined, A, B, C]` in `state.stops` and then throws: the state is mutated.
With card 0 dragged and the target index 7 (past the end) nothing is rejected:
the list becomes `[B, C, A]` and three updates are issued.  With a missing
dragged index and target 2 the first stop is moved in the same way. -/
theorem handleDrop_out_of_range_mutates_state :
    handleDropRaw (dragging threeStops 5) 0 =
      ({ selectedTourId := none,
          stops := [none, some (mkStop "A" (some 1)), some (mkStop "B" (some 2)),
            some (mkStop "C" (some 3))],
          selectedStopId := none, draggedIndex := some 5 }, none) ∧
    handleDrop (dragging threeStops 5) 0 = none ∧
    (handleDrop (dragging threeStops 0) 7).map
        (fun r => (r.1.stops.map Stop._id, r.2.filterMap id)) =
      some (["B", "C", "A"], [⟨"B", 1⟩, ⟨"C", 2⟩, ⟨"A", 3⟩]) ∧
    (handleDrop { State.init with stops := threeStops } 2).map
        (fun r => (r.1.stops.map Stop._id, r.2.filterMap id)) =
      some (["B", "C", "A"], [⟨"B", 1⟩, ⟨"C", 2⟩, ⟨"A", 3⟩]) := by
  decide

/-! ## Runs of the reconciliation -/

theorem filterMap_eq_map_filter_diff (ps : List (Nat × Stop)) :
    (ps.map fun (p : Nat × Stop) =>
        if p.2.sequence_number ≠ some ((p.1 : Int) + 1) then
          some ({ id := p.2._id, sequence_number := (p.1 : Int) + 1 } : Update)
        else none).filterMap id =
      (ps.filter fun p => decide (p.2.sequence_number ≠ some ((p.1 : Int) + 1))).map
        fun p => ({ id := p.2._id, sequence_number := (p.1 : Int) + 1 } : Update) := by
  induction ps with
  | nil => rfl
  | cons p ps ih =>
    by_cases h : p.2.sequence_number ≠ some ((p.1 : Int) + 1)
    · simp only [List.map_cons, if_pos h, List.filterMap_cons_some (id_eq _), ih,
        List.filter_cons, decide_eq_true h, if_true]
    · simp only [List.map_cons, if_neg h, List.filterMap_cons_none (id_eq _), ih,
        List.filter_cons, decide_eq_false h]
      rfl

theorem issuedUpdates_eq_map_diffEntries (st : State) :
    issuedUpdates st = (diffEntries st).map
      fun p => ({ id := p.2._id, sequence_number := (p.1 : Int) + 1 } : Update) :=
  filterMap_eq_map_filter_diff st.stops.enum

theorem saveNewSequenceRun_calls (persist : Update → Outcome) (st : State) :
    (saveNewSequenceRun persist st).calls = issuedUpdates st := rfl

theorem getElem?_settle (persist : Update → Outcome) (updates : List (Option Update))
    (j : Nat) :
    (settle persist updates)[j]? = updates[j]?.map fun p =>
      match p with
      | some u => persist u
      | none => Outcome.resolved true := by
  simp [settle]

theorem id_mem_issuedUpdates_iff (st : State) (hid : (st.stops.map Stop._id).Nodup)
    (j : Nat) (stop : Stop) (hst : st.stops[j]? = some stop) :
    stop._id ∈ (issuedUpdates st).map Update.id ↔
      stop.sequence_number ≠ some ((j : Int) + 1) := by
  constructor
  · intro hmem
    obtain ⟨u, hu, hue⟩ := List.mem_map.mp hmem
    obtain ⟨k, stop', hk, hne, rfl⟩ := (mem_issuedUpdates st u).mp hu
    have hkj : k = j := index_unique_of_nodup_ids st.stops hid k j stop' stop hk hst hue
    subst hkj
    rw [hst] at hk
    cases hk
    exact hne
  · intro h
    exact List.mem_map.mpr ⟨_, (mem_issuedUpdates st _).mpr ⟨j, stop, hst, h, rfl⟩, rfl⟩

/-- C14: when every stop's stored `sequence_number` already equals its
index + 1, `saveNewSequence` issues no remote update at all: every promise is
`Promise.resolve`, the diff is empty and the call log of a run is empty. -/
theorem saveNewSequence_in_place_issues_nothing (st : State)
    (hpos : ∀ (j : Nat) (stop : Stop), st.stops[j]? = some stop →
      stop.sequence_number = some ((j : Int) + 1)) :
    issuedUpdates st = [] ∧
    saveNewSequence st = List.replicate st.stops.length none ∧
    diffEntries st = [] ∧
    ∀ persist : Update → Outcome, (saveNewSequenceRun persist st).calls = [] := by
  have h1 : issuedUpdates st = [] := by
    rw [List.eq_nil_iff_forall_not_mem]
    intro u hu
    obtain ⟨j, stop, hst, hne, _⟩ := (mem_issuedUpdates st u).mp hu
    exact hne (hpos j stop hst)
  refine ⟨h1, ?_, ?_, fun persist => h1⟩
  · rw [List.eq_replicate_iff]
    refine ⟨length_saveNewSequence st, ?_⟩
    intro b hb
    obtain ⟨j, hj⟩ := List.mem_iff_getElem?.mp hb
    rw [getElem?_saveNewSequence] at hj
    cases hst : st.stops[j]? with
    | none => simp [hst] at hj
    | some stop =>
      have hseq := hpos j stop hst
      simp only [hst, Option.map_some', ne_eq, hseq, not_true_eq_false, if_false,
        Option.some.injEq] at hj
      exact hj.symm
  · have h2 := issuedUpdates_eq_map_diffEntries st
    rw [h1] at h2
    exact List.map_eq_nil_iff.mp h2.symm

theorem saveNewSequence_in_place_issues_nothing_witness :
    (∀ (j : Nat) (stop : Stop),
      ({ State.init with stops := threeStops } : State).stops[j]? = some stop →
      stop.sequence_number = some ((j : Int) + 1)) ∧
    issuedUpdates { State.init with stops := threeStops } = [] ∧
    saveNewSequence { State.init with stops := threeStops } =
      List.replicate ({ State.init with stops := threeStops } : State).stops.length none ∧
    diffEntries { State.init with stops := threeStops } = [] ∧
    ∀ persist : Update → Outcome,
      (saveNewSequenceRun persist { State.init with stops := threeStops }).calls = [] :=
  have hpos : ∀ (j : Nat) (stop : Stop),
      ({ State.init with stops := threeStops } : State).stops[j]? = some stop →
      stop.sequence_number = some ((j : Int) + 1) := by
    intro j stop h
    have hj : j < 3 := (List.getElem?_eq_some.mp h).1
    interval_cases j <;> simp [threeStops] at h <;> subst h <;> rfl
  ⟨hpos, saveNewSequence_in_place_issues_nothing { State.init with stops := threeStops } hpos⟩

/-- C15: with pairwise distinct ids, one run of `saveNewSequence` invokes the
remote update exactly once for each stop of the diff and never for another
stop, whatever the outcomes are: the call log is the diff turned into updates,
it has as many entries as the diff, and the id of the stop at index `j` occurs
in it once when its stored position differs from `j + 1` and not at all
otherwise.  Nothing is called again after the outcomes are known. -/
theorem saveNewSequence_calls_each_diff_entry_once (st : State)
    (hid : (st.stops.map Stop._id).Nodup) (persist : Update → Outcome) :
    (saveNewSequenceRun persist st).calls = (diffEntries st).map
      (fun p => ({ id := p.2._id, sequence_number := (p.1 : Int) + 1 } : Update)) ∧
    (saveNewSequenceRun persist st).calls.length = (diffEntries st).length ∧
    ∀ (j : Nat) (stop : Stop), st.stops[j]? = some stop →
      ((saveNewSequenceRun persist st).calls.map Update.id).count stop._id =
        if stop.sequence_number ≠ some ((j : Int) + 1) then 1 else 0 := by
  rw [saveNewSequenceRun_calls]
  refine ⟨issuedUpdates_eq_map_diffEntries st, ?_, ?_⟩
  · rw [issuedUpdates_eq_map_diffEntries, List.length_map]
  · intro j stop hst
    have hnd : ((issuedUpdates st).map Update.id).Nodup :=
      (issuedUpdates_ids_sublist st).nodup hid
    rw [List.count_eq_of_nodup hnd]
    have hiff := id_mem_issuedUpdates_iff st hid j stop hst
    by_cases h : stop.sequence_number ≠ some ((j : Int) + 1)
    · rw [if_pos (hiff.mpr h), if_pos h]
    · rw [if_neg (fun hm => h (hiff.mp hm)), if_neg h]

theorem saveNewSequence_calls_each_diff_entry_once_witness :
    (({ State.init with stops := [mkStop "C" (some 3), mkStop "B" (some 2),
      mkStop "A" (some 1)] } : State).stops.map Stop._id).Nodup ∧
    (saveNewSequenceRun (failingFor "C" Outcome.rejected) { State.init with
      stops := [mkStop "C" (some 3), mkStop "B" (some 2), mkStop "A" (some 1)] }).calls =
      (diffEntries { State.init with
        stops := [mkStop "C" (some 3), mkStop "B" (some 2), mkStop "A" (some 1)] }).map
      (fun p => ({ id := p.2._id, sequence_number := (p.1 : Int) + 1 } : Update)) ∧
    (saveNewSequenceRun (failingFor "C" Outcome.rejected) { State.init with
      stops := [mkStop "C" (some 3), mkStop "B" (some 2), mkStop "A" (some 1)] }).calls.length =
      (diffEntries { State.init with
        stops := [mkStop "C" (some 3), mkStop "B" (some 2), mkStop "A" (some 1)] }).length ∧
    ∀ (j : Nat) (stop : Stop), ({ State.init with
        stops := [mkStop "C" (some 3), mkStop "B" (some 2), mkStop "A" (some 1)] } :
          State).stops[j]? = some stop →
      ((saveNewSequenceRun (failingFor "C" Outcome.rejected) { State.init with
        stops := [mkStop "C" (some 3), mkStop "B" (some 2),
          mkStop "A" (some 1)] }).calls.map Update.id).count stop._id =
        if stop.sequence_number ≠ some ((j : Int) + 1) then 1 else 0 :=
  ⟨by decide, saveNewSequence_calls_each_diff_entry_once
    { State.init with stops := [mkStop "C" (some 3), mkStop "B" (some 2), mkStop "A" (some 1)] }
    (by decide) (failingFor "C" Outcome.rejected)⟩

theorem console_updatedSuccessfully_iff (persist : Update → Outcome) (st : State) :
    (saveNewSequenceRun persist st).console = ConsoleLine.updatedSuccessfully ↔
      ∀ u ∈ (saveNewSequenceRun persist st).calls, persist u ≠ Outcome.rejected := by
  have key : ∀ updates : List (Option Update),
      promiseAllResolves (settle persist updates) = true ↔
        ∀ u ∈ updates.filterMap id, persist u ≠ Outcome.rejected := by
    intro updates
    induction updates with
    | nil => simp [promiseAllResolves, settle]
    | cons p ps ih =>
      have hcons : promiseAllResolves (settle persist (p :: ps)) =
          (decide ((match p with
            | some u => persist u
            | none => Outcome.resolved true) ≠ Outcome.rejected) &&
            promiseAllResolves (settle persist ps)) := rfl
      rw [hcons, Bool.and_eq_true, ih]
      cases p with
      | none => simp
      | some u => simp
  show (if promiseAllResolves (settle persist (saveNewSequence st)) then
      ConsoleLine.updatedSuccessfully else ConsoleLine.errorUpdating) =
        ConsoleLine.updatedSuccessfully ↔
      ∀ u ∈ (saveNewSequence st).filterMap id, persist u ≠ Outcome.rejected
  rw [← key (saveNewSequence st)]
  by_cases h : promiseAllResolves (settle persist (saveNewSequence st)) = true
  · simp [h]
  · simp [h]

/-- C16: a failing call does not abort or skip its siblings.  Against a stub
that settles as `bad` (a rejection or a failure answer) for one chosen id and
succeeds for all others, `saveNewSequence` makes the same calls as against a
stub that always succeeds: the update of every stop of the diff is invoked, and
the promise of every stop with another id resolves with success. -/
theorem saveNewSequence_failure_isolated (st : State) (badId : String) (bad : Outcome) :
    (saveNewSequenceRun (failingFor badId bad) st).calls =
      (saveNewSequenceRun (fun _ => Outcome.resolved true) st).calls ∧
    (∀ (j : Nat) (stop : Stop), st.stops[j]? = some stop →
      stop.sequence_number ≠ some ((j : Int) + 1) →
      ({ id := stop._id, sequence_number := (j : Int) + 1 } : Update) ∈
        (saveNewSequenceRun (failingFor badId bad) st).calls) ∧
    (saveNewSequenceRun (failingFor badId bad) st).outcomes.length = st.stops.length ∧
    (∀ (j : Nat) (stop : Stop), st.stops[j]? = some stop → stop._id ≠ badId →
      (saveNewSequenceRun (failingFor badId bad) st).outcomes[j]? =
        some (Outcome.resolved true)) := by
  refine ⟨rfl, ?_, ?_, ?_⟩
  · intro j stop hst h
    rw [saveNewSequenceRun_calls]
    exact (mem_issuedUpdates st _).mpr ⟨j, stop, hst, h, rfl⟩
  · show (settle _ (saveNewSequence st)).length = _
    simp [settle, length_saveNewSequence]
  · intro j stop hst hne
    show (settle _ (saveNewSequence st))[j]? = _
    rw [getElem?_settle, getElem?_saveNewSequence, hst]
    by_cases h : stop.sequence_number ≠ some ((j : Int) + 1)
    · simp [h, failingFor, hne]
    · have h' : stop.sequence_number = some ((j : Int) + 1) := by simpa using h
      simp [h']

/-- C17, evaluated where the code departs from it: for the single stop `A`
stored at position 2 the update `(A, 1)` is issued; when it resolves with
`success: false` the run still logs "Route sequence updated successfully". -/
theorem saveNewSequence_logs_success_on_failure_answer :
    (saveNewSequenceRun (fun _ => Outcome.resolved false)
      { State.init with stops := [mkStop "A" (some 2)] }).calls = [⟨"A", 1⟩] ∧
    (saveNewSequenceRun (fun _ => Outcome.resolved false)
      { State.init with stops := [mkStop "A" (some 2)] }).outcomes =
        [Outcome.resolved false] ∧
    (saveNewSequenceRun (fun _ => Outcome.resolved false)
      { State.init with stops := [mkStop "A" (some 2)] }).console =
        ConsoleLine.updatedSuccessfully := by
  decide

/-- C18: `saveNewSequence` never assigns `state`.  After a run, whatever the
outcomes, the state (`stops` with every field, `selectedTourId`,
`selectedStopId`) is the one before it, so nothing is rolled back; and when the
promises settle in another current state, such as the one a reload has
stored meanwhile, that state is left as it is. -/
theorem saveNewSequence_keeps_state (st : State) (persist : Update → Outcome) :
    (saveNewSequenceRun persist st).state = st ∧
    (saveNewSequenceRun persist st).state.stops = st.stops ∧
    (saveNewSequenceRun persist st).state.selectedTourId = st.selectedTourId ∧
    (saveNewSequenceRun persist st).state.selectedStopId = st.selectedStopId ∧
    (∀ (current : State) (outcomes : List Outcome),
      (saveNewSequenceSettled current outcomes).1 = current) ∧
    (∀ res : Option Response,
      (saveNewSequenceSettled (loadStops st res)
        (settle persist (saveNewSequence st))).1 = loadStops st res) :=
  ⟨rfl, rfl, rfl, rfl, fun _ _ => rfl, fun _ => rfl⟩

/-- C19, evaluated on a round trip: the five stops `a..e` are stored at
positions 1..5, card 1 is dropped on card 3 and reconciled (order
`[a, c, d, b, e]`), then card 3 is dropped on card 1.  The order is
`[a, b, c, d, e]` again and the stops at indices 1, 2, 3 changed their index in
the second move, but the second `saveNewSequence` builds no update at all and
the remote store keeps `b=4, c=2, d=3`. -/
theorem round_trip_second_save_issues_nothing :
    (dragAndDrop ({ State.init with stops := fiveStops }, remoteOf fiveStops)
        (1, 3)).toOption.map (fun r => r.1.stops.map Stop._id) =
      some ["a", "c", "d", "b", "e"] ∧
    ((dragAndDrop ({ State.init with stops := fiveStops }, remoteOf fiveStops)
        (1, 3)).toOption.bind fun r => handleDrop (handleDragStart r.1 3) 1).map
          (fun r => (r.1.stops.map Stop._id, r.2)) =
      some (["a", "b", "c", "d", "e"], [none, none, none, none, none]) ∧
    (List.range 5).filter (fun i => decide (newIndex 3 1 i ≠ i)) = [1, 2, 3] ∧
    (session ({ State.init with stops := fiveStops }, remoteOf fiveStops)
        [(1, 3), (3, 1)]).toOption.map (fun r => fiveStops.map fun stop => r.2 stop._id) =
      some [some 1, some 4, some 2, some 3, some 5] := by
  decide

/-! ## Selecting another tour -/

/-- C21, as stated, fails: with the stops of tour `T1` in `state.stops`,
`selectTour("T2")` leaves them there while the load is pending, and they stay
when the load reports failure or is rejected. -/
theorem selectTour_keeps_old_stops_counterexample :
    (selectTour [⟨"T1", none⟩, ⟨"T2", none⟩]
      { State.init with selectedTourId := some "T1", stops := threeStops } "T2").1.stops
        = threeStops ∧
    (selectTour [⟨"T1", none⟩, ⟨"T2", none⟩]
      { State.init with selectedTourId := some "T1", stops := threeStops } "T2").2 = true ∧
    (selectTourSettled [⟨"T1", none⟩, ⟨"T2", none⟩]
      { State.init with selectedTourId := some "T1", stops := threeStops } "T2"
        (some ⟨false, []⟩)).stops = threeStops ∧
    (selectTourSettled [⟨"T1", none⟩, ⟨"T2", none⟩]
      { State.init with selectedTourId := some "T1", stops := threeStops } "T2"
        none).stops = threeStops ∧
    (selectTourSettled [⟨"T1", none⟩, ⟨"T2", none⟩]
      { State.init with selectedTourId := some "T1", stops := threeStops } "T2"
        (some ⟨false, []⟩)).selectedTourId = some "T2" := by
  decide

/-- C21 (amended): the collection is replaced when the load for the newly
selected tour succeeds.  `selectTour(id)` sets `selectedTourId` to `id` and
clears `selectedStopId` without touching `state.stops`; when the `loadStops` it
starts succeeds, `state.stops` becomes the fetched stops in sorted order, so it
holds no stop that the answer does not contain; when that load reports failure
or is rejected, `state.stops` is left as it was. -/
theorem selectTour_replaces_stops_on_success (tours : List Tour) (st : State) (id : String) :
    (selectTour tours st id).1 = { st with selectedTourId := some id, selectedStopId := none } ∧
    (selectTour tours st id).1.stops = st.stops ∧
    (∀ res : Response, res.success = true → (∃ t ∈ tours, t._id = id) →
      (selectTourSettled tours st id (some res)).stops = jsSort compareFn res.data ∧
      (selectTourSettled tours st id (some res)).stops.Perm res.data ∧
      ∀ stop ∈ (selectTourSettled tours st id (some res)).stops, stop ∈ res.data) ∧
    (∀ res : Response, res.success = false →
      (selectTourSettled tours st id (some res)).stops = st.stops) ∧
    (selectTourSettled tours st id none).stops = st.stops := by
  have h1 : (selectTour tours st id).1 =
      { st with selectedTourId := some id, selectedStopId := none } := by
    unfold selectTour
    split <;> rfl
  refine ⟨h1, by rw [h1], ?_, ?_, ?_⟩
  · intro res hok ⟨t, ht, hid⟩
    have h2 : (selectTour tours st id).2 = true := by
      unfold selectTour
      split
      · rfl
      · rename_i hnone
        have := List.find?_eq_none.mp hnone t ht
        simp [hid] at this
    have h3 : (selectTourSettled tours st id (some res)).stops = jsSort compareFn res.data := by
      simp only [selectTourSettled, h2, if_true, h1, loadStops_success _ res hok]
    rw [h3]
    exact ⟨rfl, jsSort_perm compareFn res.data,
      fun stop hs => (jsSort_perm compareFn res.data).mem_iff.mp hs⟩
  · intro res hf
    simp only [selectTourSettled]
    split_ifs
    · simp [loadStops, hf, h1]
    · rw [h1]
  · simp only [selectTourSettled]
    split_ifs
    · simp [loadStops, h1]
    · rw [h1]

end ServicePortal

namespace ApPortal

/-! ## Invoice positions -/

theorem find?_beleg_isSome (belege : List Beleg) (id : String)
    (h : ∃ b ∈ belege, b._id = id) :
    ∃ beleg, (belege.find? fun b => decide (b._id = id)) = some beleg := by
  obtain ⟨b, hb, hid⟩ := h
  cases hf : belege.find? fun b => decide (b._id = id) with
  | some beleg => exact ⟨beleg, rfl⟩
  | none =>
    have := List.find?_eq_none.mp hf b hb
    simp [hid] at this

/-- C22: for an id that is not empty `filterPositionenByBeleg` returns exactly
the positions whose `beleg_custom_erp_ek_beleg` equals the id, in their
original relative order (it is the filtered list, a sublist of
`allRechnungspositionen`, which the function only reads); for a missing or
empty id it returns the empty list. -/
theorem filterPositionenByBeleg_exact (st : State) (id : String) (hid : id ≠ "") :
    filterPositionenByBeleg st (some id) =
      st.allRechnungspositionen.filter
        (fun position => decide (position.beleg_custom_erp_ek_beleg = some id)) ∧
    (∀ p : Position, p ∈ filterPositionenByBeleg st (some id) ↔
      p ∈ st.allRechnungspositionen ∧ p.beleg_custom_erp_ek_beleg = some id) ∧
    (filterPositionenByBeleg st (some id)).Sublist st.allRechnungspositionen ∧
    filterPositionenByBeleg st none = [] ∧
    filterPositionenByBeleg st (some "") = [] := by
  have h : filterPositionenByBeleg st (some id) =
      st.allRechnungspositionen.filter
        (fun position => decide (position.beleg_custom_erp_ek_beleg = some id)) := by
    simp [filterPositionenByBeleg, hid]
  refine ⟨h, ?_, ?_, rfl, rfl⟩
  · intro p
    rw [h, List.mem_filter]
    simp
  · rw [h]
    exact List.filter_sublist _

theorem filterPositionenByBeleg_exact_witness :
    "B1" ≠ "" ∧
    filterPositionenByBeleg ⟨[], [⟨"p1", some "B1", none⟩, ⟨"p2", some "B2", none⟩,
        ⟨"p3", some "B1", none⟩, ⟨"p4", none, none⟩], none, []⟩ (some "B1") =
      (⟨[], [⟨"p1", some "B1", none⟩, ⟨"p2", some "B2", none⟩,
        ⟨"p3", some "B1", none⟩, ⟨"p4", none, none⟩], none, []⟩ :
          State).allRechnungspositionen.filter
        (fun position => decide (position.beleg_custom_erp_ek_beleg = some "B1")) ∧
    (∀ p : Position, p ∈ filterPositionenByBeleg ⟨[], [⟨"p1", some "B1", none⟩,
        ⟨"p2", some "B2", none⟩, ⟨"p3", some "B1", none⟩, ⟨"p4", none, none⟩], none, []⟩
          (some "B1") ↔
      p ∈ (⟨[], [⟨"p1", some "B1", none⟩, ⟨"p2", some "B2", none⟩,
        ⟨"p3", some "B1", none⟩, ⟨"p4", none, none⟩], none, []⟩ :
          State).allRechnungspositionen ∧ p.beleg_custom_erp_ek_beleg = some "B1") ∧
    (filterPositionenByBeleg ⟨[], [⟨"p1", some "B1", none⟩, ⟨"p2", some "B2", none⟩,
        ⟨"p3", some "B1", none⟩, ⟨"p4", none, none⟩], none, []⟩ (some "B1")).Sublist
      (⟨[], [⟨"p1", some "B1", none⟩, ⟨"p2", some "B2", none⟩,
        ⟨"p3", some "B1", none⟩, ⟨"p4", none, none⟩], none, []⟩ :
          State).allRechnungspositionen ∧
    filterPositionenByBeleg ⟨[], [⟨"p1", some "B1", none⟩, ⟨"p2", some "B2", none⟩,
        ⟨"p3", some "B1", none⟩, ⟨"p4", none, none⟩], none, []⟩ none = [] ∧
    filterPositionenByBeleg ⟨[], [⟨"p1", some "B1", none⟩, ⟨"p2", some "B2", none⟩,
        ⟨"p3", some "B1", none⟩, ⟨"p4", none, none⟩], none, []⟩ (some "") = [] :=
  ⟨by decide, filterPositionenByBeleg_exact _ "B1" (by decide)⟩

theorem mem_filterPositionenByBeleg (st : State) (id : String) (p : Position)
    (hp : p ∈ filterPositionenByBeleg st (some id)) :
    p.beleg_custom_erp_ek_beleg = some id := by
  simp only [filterPositionenByBeleg] at hp
  split_ifs at hp with h
  · cases hp
  · simpa using (List.mem_filter.mp hp).2

/-- C23: after `selectInvoice(id)` for an id present in `allBelege`, every
position in `filteredPositionen` has `beleg_custom_erp_ek_beleg` equal to `id`:
on the local path, on the fallback path whatever the API returns, and when the
fallback request fails or is rejected (the list is then empty). -/
theorem selectInvoice_filtered_belong (st : State) (id : String)
    (linesRes : Option LinesResponse) (hid : ∃ b ∈ st.allBelege, b._id = id) :
    ∀ p ∈ (selectInvoice st id linesRes).filteredPositionen,
      p.beleg_custom_erp_ek_beleg = some id := by
  obtain ⟨beleg, hfind⟩ := find?_beleg_isSome st.allBelege id hid
  intro p hp
  unfold selectInvoice at hp
  rw [hfind] at hp
  simp only at hp
  split_ifs at hp with h1
  · exact mem_filterPositionenByBeleg _ id p hp
  · cases linesRes with
    | none => exact mem_filterPositionenByBeleg _ id p hp
    | some res =>
      simp only at hp
      cases hdata : res.data with
      | none =>
        rw [hdata] at hp
        exact mem_filterPositionenByBeleg _ id p hp
      | some data =>
        rw [hdata] at hp
        simp only at hp
        split_ifs at hp with h2 h3
        · simpa using (List.mem_filter.mp hp).2
        · cases hp
        · exact mem_filterPositionenByBeleg _ id p hp

theorem selectInvoice_filtered_belong_witness :
    (∃ b ∈ (⟨[⟨"B1", some 10, none⟩], [⟨"p9", some "B2", none⟩], none, []⟩ : State).allBelege,
      b._id = "B1") ∧
    ∀ p ∈ (selectInvoice ⟨[⟨"B1", some 10, none⟩], [⟨"p9", some "B2", none⟩], none, []⟩ "B1"
        (some ⟨true, some [⟨"p1", some "B1", none⟩, ⟨"p2", some "B2", none⟩]⟩)).filteredPositionen,
      p.beleg_custom_erp_ek_beleg = some "B1" :=
  ⟨⟨⟨"B1", some 10, none⟩, by simp, rfl⟩,
    selectInvoice_filtered_belong ⟨[⟨"B1", some 10, none⟩], [⟨"p9", some "B2", none⟩], none, []⟩
      "B1" (some ⟨true, some [⟨"p1", some "B1", none⟩, ⟨"p2", some "B2", none⟩]⟩)
      ⟨⟨"B1", some 10, none⟩, by simp, rfl⟩⟩

theorem mergePositionen_cons (all : List Position) (pos : Position) (data : List Position) :
    mergePositionen all (pos :: data) =
      mergePositionen
        (if (all.find? fun p => decide (p._id = pos._id)).isSome then all else all ++ [pos])
        data := rfl

theorem find?_id_isSome_iff (all : List Position) (i : String) :
    (all.find? fun p => decide (p._id = i)).isSome = true ↔ i ∈ all.map Position._id := by
  rw [List.find?_isSome]
  simp only [decide_eq_true_eq, List.mem_map]

/-- C30: the fallback merge keeps position ids unique.  When
`allRechnungspositionen` has pairwise distinct `_id`, then after merging any
API result (repeated or already known ids allowed) the ids are still pairwise
distinct, the previous list is a prefix of the new one (every previous element
stays at its index), and every `_id` of the API result is present. -/
theorem mergePositionen_keeps_ids_unique (all data : List Position)
    (hnd : (all.map Position._id).Nodup) :
    ((mergePositionen all data).map Position._id).Nodup ∧
    all <+: mergePositionen all data ∧
    (∀ (i : Nat) (p : Position), all[i]? = some p → (mergePositionen all data)[i]? = some p) ∧
    ∀ pos ∈ data, pos._id ∈ (mergePositionen all data).map Position._id := by
  have key : ∀ (data all : List Position), (all.map Position._id).Nodup →
      ((mergePositionen all data).map Position._id).Nodup ∧
      all <+: mergePositionen all data ∧
      ∀ pos ∈ data, pos._id ∈ (mergePositionen all data).map Position._id := by
    intro data
    induction data with
    | nil =>
      intro all h
      exact ⟨h, List.prefix_refl _, fun pos hp => by cases hp⟩
    | cons pos data ih =>
      intro all h
      rw [mergePositionen_cons]
      by_cases hf : (all.find? fun p => decide (p._id = pos._id)).isSome = true
      · rw [if_pos hf]
        obtain ⟨h1, h2, h3⟩ := ih all h
        refine ⟨h1, h2, ?_⟩
        intro q hq
        rcases List.mem_cons.mp hq with rfl | hq'
        · have hmem := (find?_id_isSome_iff all q._id).mp hf
          exact (h2.sublist.map Position._id).subset hmem
        · exact h3 q hq'
      · rw [if_neg hf]
        have hnot : pos._id ∉ all.map Position._id :=
          fun hm => hf ((find?_id_isSome_iff all pos._id).mpr hm)
        have hnd' : ((all ++ [pos]).map Position._id).Nodup := by
          rw [List.map_append, List.map_singleton]
          refine List.Nodup.append h (List.nodup_singleton _) ?_
          intro x hx hx'
          rw [List.mem_singleton] at hx'
          exact hnot (hx' ▸ hx)
        obtain ⟨h1, h2, h3⟩ := ih (all ++ [pos]) hnd'
        refine ⟨h1, (List.prefix_append all [pos]).trans h2, ?_⟩
        intro q hq
        rcases List.mem_cons.mp hq with rfl | hq'
        · have hmem : q._id ∈ (all ++ [q]).map Position._id := by simp
          exact (h2.sublist.map Position._id).subset hmem
        · exact h3 q hq'
  obtain ⟨h1, h2, h3⟩ := key data all hnd
  refine ⟨h1, h2, ?_, h3⟩
  intro i p hi
  obtain ⟨t, ht⟩ := h2
  rw [← ht, List.getElem?_append_left (List.getElem?_eq_some.mp hi).1]
  exact hi

theorem mergePositionen_keeps_ids_unique_witness :
    (([⟨"p1", some "B1", none⟩, ⟨"p2", some "B2", none⟩] : List Position).map
      Position._id).Nodup ∧
    ((mergePositionen [⟨"p1", some "B1", none⟩, ⟨"p2", some "B2", none⟩]
      [⟨"p3", some "B3", none⟩, ⟨"p1", some "B3", none⟩, ⟨"p3", some "B3", none⟩]).map
        Position._id).Nodup ∧
    [⟨"p1", some "B1", none⟩, ⟨"p2", some "B2", none⟩] <+:
      mergePositionen [⟨"p1", some "B1", none⟩, ⟨"p2", some "B2", none⟩]
        [⟨"p3", some "B3", none⟩, ⟨"p1", some "B3", none⟩, ⟨"p3", some "B3", none⟩] ∧
    (∀ (i : Nat) (p : Position),
      ([⟨"p1", some "B1", none⟩, ⟨"p2", some "B2", none⟩] : List Position)[i]? = some p →
      (mergePositionen [⟨"p1", some "B1", none⟩, ⟨"p2", some "B2", none⟩]
        [⟨"p3", some "B3", none⟩, ⟨"p1", some "B3", none⟩, ⟨"p3", some "B3", none⟩])[i]?
          = some p) ∧
    ∀ pos ∈ ([⟨"p3", some "B3", none⟩, ⟨"p1", some "B3", none⟩, ⟨"p3", some "B3", none⟩] :
        List Position),
      pos._id ∈ (mergePositionen [⟨"p1", some "B1", none⟩, ⟨"p2", some "B2", none⟩]
        [⟨"p3", some "B3", none⟩, ⟨"p1", some "B3", none⟩, ⟨"p3", some "B3", none⟩]).map
          Position._id :=
  ⟨by decide, mergePositionen_keeps_ids_unique _ _ (by decide)⟩

end ApPortal

namespace IotDashboard

/-- C25: for an answer with data, `fetchAnalysisData` hands the reversed list to
the chart, which is ascending by timestamp whenever the data is descending
(newest first), and `renderRecentTable` applied to that reversed list shows
exactly the first `min 15 n` elements of the data in the data's own order. -/
theorem recentTable_shows_newest_first (result : ObservationResponse)
    (data : List Observation) (hs : result.success = true) (hd : result.data = some data) :
    fetchAnalysisData result = some data.reverse ∧
    (data.Pairwise (fun a b => b.zeitstempel_date ≤ a.zeitstempel_date) →
      data.reverse.Pairwise (fun a b => a.zeitstempel_date ≤ b.zeitstempel_date)) ∧
    renderRecentTable data.reverse = data.take 15 ∧
    (renderRecentTable data.reverse).length = min 15 data.length := by
  have h3 : renderRecentTable data.reverse = data.take 15 := by
    unfold renderRecentTable
    split_ifs with h
    · have : data = [] := by
        rw [List.length_reverse] at h
        exact List.length_eq_zero.mp h
      rw [this]
      rfl
    · rw [List.reverse_reverse]
  refine ⟨by simp [fetchAnalysisData, hd, hs], ?_, h3, ?_⟩
  · intro h
    exact List.pairwise_reverse.mpr h
  · rw [h3, List.length_take]

theorem recentTable_shows_newest_first_witness :
    (⟨true, some [⟨30, none⟩, ⟨20, some 1⟩, ⟨10, none⟩]⟩ : ObservationResponse).success = true ∧
    (⟨true, some [⟨30, none⟩, ⟨20, some 1⟩, ⟨10, none⟩]⟩ : ObservationResponse).data =
      some [⟨30, none⟩, ⟨20, some 1⟩, ⟨10, none⟩] ∧
    fetchAnalysisData ⟨true, some [⟨30, none⟩, ⟨20, some 1⟩, ⟨10, none⟩]⟩ =
      some ([⟨30, none⟩, ⟨20, some 1⟩, ⟨10, none⟩] : List Observation).reverse ∧
    (([⟨30, none⟩, ⟨20, some 1⟩, ⟨10, none⟩] : List Observation).Pairwise
        (fun a b => b.zeitstempel_date ≤ a.zeitstempel_date) →
      ([⟨30, none⟩, ⟨20, some 1⟩, ⟨10, none⟩] : List Observation).reverse.Pairwise
        (fun a b => a.zeitstempel_date ≤ b.zeitstempel_date)) ∧
    renderRecentTable ([⟨30, none⟩, ⟨20, some 1⟩, ⟨10, none⟩] : List Observation).reverse =
      ([⟨30, none⟩, ⟨20, some 1⟩, ⟨10, none⟩] : List Observation).take 15 ∧
    (renderRecentTable ([⟨30, none⟩, ⟨20, some 1⟩, ⟨10, none⟩] : List Observation).reverse).length
      = min 15 ([⟨30, none⟩, ⟨20, some 1⟩, ⟨10, none⟩] : List Observation).length :=
  ⟨rfl, rfl, recentTable_shows_newest_first ⟨true, some [⟨30, none⟩, ⟨20, some 1⟩, ⟨10, none⟩]⟩
    [⟨30, none⟩, ⟨20, some 1⟩, ⟨10, none⟩] rfl rfl⟩

end IotDashboard

namespace AssetManagement

theorem asciiLower_keeps_aktiv (s : String)
    (h : "aktiv".data <:+: s.data) : "aktiv".data <:+: (JSString.asciiLower s).data := by
  have h' := h.map Char.toLower
  have hk : "aktiv".data.map Char.toLower = "aktiv".data := by decide
  rw [hk] at h'
  exact h'

/-- C26: `getStatusClass` returns exactly one of the four badge classes, decided
on the lower-cased status by substring with fixed priority: success (`aktiv`
or `betrieb`) over warning (`wartung` or `reparatur`) over danger (`defekt` or
`ausgemustert`) over neutral.  Since lower-casing keeps an occurrence of
`aktiv`, every status containing `aktiv` yields the success class (`Inaktiv`
does); a lower-cased status with none of the six keywords, and a missing or
empty status, yield the neutral class. -/
theorem getStatusClass_priority (toLowerCase : String → String) (status : Option String)
    (hkeep : ∀ s : String, "aktiv".data <:+: s.data → "aktiv".data <:+: (toLowerCase s).data)
    (hempty : toLowerCase "" = "") :
    (getStatusClass toLowerCase status = "ast01-badge-success" ∨
      getStatusClass toLowerCase status = "ast01-badge-warning" ∨
      getStatusClass toLowerCase status = "ast01-badge-danger" ∨
      getStatusClass toLowerCase status = "ast01-badge-neutral") ∧
    (getStatusClass toLowerCase status = "ast01-badge-success" ↔
      (JSString.includes (toLowerCase (status.getD "")) "aktiv" = true ∨
        JSString.includes (toLowerCase (status.getD "")) "betrieb" = true)) ∧
    (getStatusClass toLowerCase status = "ast01-badge-warning" ↔
      ¬ (JSString.includes (toLowerCase (status.getD "")) "aktiv" = true ∨
        JSString.includes (toLowerCase (status.getD "")) "betrieb" = true) ∧
      (JSString.includes (toLowerCase (status.getD "")) "wartung" = true ∨
        JSString.includes (toLowerCase (status.getD "")) "reparatur" = true)) ∧
    (getStatusClass toLowerCase status = "ast01-badge-danger" ↔
      ¬ (JSString.includes (toLowerCase (status.getD "")) "aktiv" = true ∨
        JSString.includes (toLowerCase (status.getD "")) "betrieb" = true) ∧
      ¬ (JSString.includes (toLowerCase (status.getD "")) "wartung" = true ∨
        JSString.includes (toLowerCase (status.getD "")) "reparatur" = true) ∧
      (JSString.includes (toLowerCase (status.getD "")) "defekt" = true ∨
        JSString.includes (toLowerCase (status.getD "")) "ausgemustert" = true)) ∧
    (getStatusClass toLowerCase status = "ast01-badge-neutral" ↔
      ¬ (JSString.includes (toLowerCase (status.getD "")) "aktiv" = true ∨
        JSString.includes (toLowerCase (status.getD "")) "betrieb" = true) ∧
      ¬ (JSString.includes (toLowerCase (status.getD "")) "wartung" = true ∨
        JSString.includes (toLowerCase (status.getD "")) "reparatur" = true) ∧
      ¬ (JSString.includes (toLowerCase (status.getD "")) "defekt" = true ∨
        JSString.includes (toLowerCase (status.getD "")) "ausgemustert" = true)) ∧
    (∀ str : String, JSString.includes str "aktiv" = true →
      getStatusClass toLowerCase (some str) = "ast01-badge-success") ∧
    getStatusClass toLowerCase none = "ast01-badge-neutral" ∧
    getStatusClass toLowerCase (some "") = "ast01-badge-neutral" ∧
    getStatusClass JSString.asciiLower (some "Inaktiv") = "ast01-badge-success" := by
  have hmain : ∀ st : Option String,
      (getStatusClass toLowerCase st = "ast01-badge-success" ↔
        (JSString.includes (toLowerCase (st.getD "")) "aktiv" = true ∨
          JSString.includes (toLowerCase (st.getD "")) "betrieb" = true)) := by
    intro st
    simp only [getStatusClass, Bool.or_eq_true]
    split_ifs with h1 h2 h3
    · simp [h1]
    · constructor
      · intro h; exact absurd h (by decide)
      · intro h; exact absurd h h1
    · constructor
      · intro h; exact absurd h (by decide)
      · intro h; exact absurd h h1
    · constructor
      · intro h; exact absurd h (by decide)
      · intro h; exact absurd h h1
  refine ⟨?_, hmain status, ?_, ?_, ?_, ?_, ?_, ?_, ?_⟩
  · simp only [getStatusClass]
    split_ifs
    · exact Or.inl rfl
    · exact Or.inr (Or.inl rfl)
    · exact Or.inr (Or.inr (Or.inl rfl))
    · exact Or.inr (Or.inr (Or.inr rfl))
  · simp only [getStatusClass, Bool.or_eq_true]
    split_ifs with h1 h2 h3
    · constructor
      · intro h; exact absurd h (by decide)
      · intro h; exact absurd h1 h.1
    · simp [h1, h2]
    · constructor
      · intro h; exact absurd h (by decide)
      · intro h; exact absurd h.2 h2
    · constructor
      · intro h; exact absurd h (by decide)
      · intro h; exact absurd h.2 h2
  · simp only [getStatusClass, Bool.or_eq_true]
    split_ifs with h1 h2 h3
    · constructor
      · intro h; exact absurd h (by decide)
      · intro h; exact absurd h1 h.1
    · constructor
      · intro h; exact absurd h (by decide)
      · intro h; exact absurd h2 h.2.1
    · simp [h1, h2, h3]
    · constructor
      · intro h; exact absurd h (by decide)
      · intro h; exact absurd h.2.2 h3
  · simp only [getStatusClass, Bool.or_eq_true]
    split_ifs with h1 h2 h3
    · constructor
      · intro h; exact absurd h (by decide)
      · intro h; exact absurd h1 h.1
    · constructor
      · intro h; exact absurd h (by decide)
      · intro h; exact absurd h2 h.2.1
    · constructor
      · intro h; exact absurd h (by decide)
      · intro h; exact absurd h3 h.2.2
    · simp [h1, h2, h3]
  · intro str hstr
    rw [hmain (some str)]
    left
    have h1 : "aktiv".data <:+: str.data := by
      simpa [JSString.includes] using hstr
    have h2 := hkeep str h1
    simpa [JSString.includes] using h2
  · simp only [getStatusClass, Option.getD_none, hempty]
    decide
  · simp only [getStatusClass, Option.getD_some, hempty]
    decide
  · decide

theorem getStatusClass_priority_witness :
    (∀ s : String, "aktiv".data <:+: s.data → "aktiv".data <:+: (JSString.asciiLower s).data) ∧
    JSString.asciiLower "" = "" ∧
    getStatusClass JSString.asciiLower (some "In Wartung (AKTIV)") = "ast01-badge-success" :=
  ⟨asciiLower_keeps_aktiv, rfl,
    ((getStatusClass_priority JSString.asciiLower (some "In Wartung (AKTIV)")
      asciiLower_keeps_aktiv rfl).2.1).mpr (Or.inl (by decide))⟩

end AssetManagement

namespace EmployeeDirectory

theorem runFilters_eq_filter_all (toLowerCase : String → String)
    (parseDate : String → Option Int) (now : Int) (employees : List Employee)
    (searchValue deptId status : String) :
    runFilters toLowerCase parseDate now employees searchValue deptId status =
      (runFilters toLowerCase parseDate now employees searchValue deptId "").filter
        fun emp => if status = "active" then isActive parseDate now emp
          else if status = "inactive" then !isActive parseDate now emp else true := by
  simp only [runFilters, List.filter_filter]
  apply List.filter_congr
  intro emp _
  have h1 : ¬ ("" = "active") := by decide
  have h2 : ¬ ("" = "inactive") := by decide
  simp only [h1, h2, if_false, Bool.and_true]
  rw [Bool.and_comm]

theorem runFilters_no_status (toLowerCase : String → String)
    (parseDate : String → Option Int) (now : Int) (employees : List Employee)
    (searchValue deptId : String) :
    runFilters toLowerCase parseDate now employees searchValue deptId "" =
      employees.filter fun emp =>
        matchesSearch toLowerCase searchValue emp && matchesDept deptId emp := by
  simp only [runFilters]
  apply List.filter_congr
  intro emp _
  have h1 : ¬ ("" = "active") := by decide
  have h2 : ¬ ("" = "inactive") := by decide
  simp only [h1, h2, if_false, Bool.and_true]

theorem isActive_iff (parseDate : String → Option Int) (now : Int) (emp : Employee) :
    isActive parseDate now emp = true ↔
      emp.austritt_date = none ∨ emp.austritt_date = some "" ∨
        ∃ d t, emp.austritt_date = some d ∧ parseDate d = some t ∧ now < t := by
  unfold isActive
  cases hd : emp.austritt_date with
  | none => simp
  | some d =>
    by_cases he : d = ""
    · simp [he]
    · cases hp : parseDate d with
      | none => simp [he, hp]
      | some t => simp [he, hp]

/-- C28: for one reading of the clock, one search text and one department
filter, the status filter partitions the matching employees.  The result
without status filter consists of exactly the employees that match the search
and the department condition, in the order of the employee list; the result
for `active` is its restriction to the active employees (no `austritt_date`,
or one later than now), the result for `inactive` its restriction to the
others.  Every matching employee is in exactly one of the two, as often as in
the employee list; both keep the order of the unfiltered result and their
lengths add up to its length. -/
theorem runFilters_status_partition (toLowerCase : String → String)
    (parseDate : String → Option Int) (now : Int) (employees : List Employee)
    (searchValue deptId : String) :
    runFilters toLowerCase parseDate now employees searchValue deptId "active" =
      (runFilters toLowerCase parseDate now employees searchValue deptId "").filter
        (fun emp => isActive parseDate now emp) ∧
    runFilters toLowerCase parseDate now employees searchValue deptId "inactive" =
      (runFilters toLowerCase parseDate now employees searchValue deptId "").filter
        (fun emp => !isActive parseDate now emp) ∧
    (∀ emp : Employee,
      emp ∈ runFilters toLowerCase parseDate now employees searchValue deptId "" ↔
        (emp ∈ runFilters toLowerCase parseDate now employees searchValue deptId "active" ∨
          emp ∈ runFilters toLowerCase parseDate now employees searchValue deptId "inactive")) ∧
    (∀ emp : Employee,
      ¬ (emp ∈ runFilters toLowerCase parseDate now employees searchValue deptId "active" ∧
        emp ∈ runFilters toLowerCase parseDate now employees searchValue deptId "inactive")) ∧
    (runFilters toLowerCase parseDate now employees searchValue deptId "active").Sublist
      (runFilters toLowerCase parseDate now employees searchValue deptId "") ∧
    (runFilters toLowerCase parseDate now employees searchValue deptId "inactive").Sublist
      (runFilters toLowerCase parseDate now employees searchValue deptId "") ∧
    (runFilters toLowerCase parseDate now employees searchValue deptId "active").length +
      (runFilters toLowerCase parseDate now employees searchValue deptId "inactive").length =
      (runFilters toLowerCase parseDate now employees searchValue deptId "").length ∧
    runFilters toLowerCase parseDate now employees searchValue deptId "" =
      employees.filter (fun emp =>
        matchesSearch toLowerCase searchValue emp && matchesDept deptId emp) ∧
    (∀ emp : Employee,
      emp ∈ runFilters toLowerCase parseDate now employees searchValue deptId "" ↔
        emp ∈ employees ∧ matchesSearch toLowerCase searchValue emp = true ∧
          matchesDept deptId emp = true) ∧
    (∀ emp : Employee, emp ∈ employees → matchesSearch toLowerCase searchValue emp = true →
      matchesDept deptId emp = true →
      (isActive parseDate now emp = true ∧
        emp ∈ runFilters toLowerCase parseDate now employees searchValue deptId "active" ∧
        emp ∉ runFilters toLowerCase parseDate now employees searchValue deptId "inactive") ∨
      (isActive parseDate now emp = false ∧
        emp ∈ runFilters toLowerCase parseDate now employees searchValue deptId "inactive" ∧
        emp ∉ runFilters toLowerCase parseDate now employees searchValue deptId "active")) ∧
    (∀ emp : Employee, matchesSearch toLowerCase searchValue emp = true →
      matchesDept deptId emp = true →
      (runFilters toLowerCase parseDate now employees searchValue deptId "active").count emp +
        (runFilters toLowerCase parseDate now employees searchValue deptId "inactive").count emp =
        employees.count emp) ∧
    (∀ emp : Employee, isActive parseDate now emp = true ↔
      emp.austritt_date = none ∨ emp.austritt_date = some "" ∨
        ∃ d t, emp.austritt_date = some d ∧ parseDate d = some t ∧ now < t) := by
  have ha : runFilters toLowerCase parseDate now employees searchValue deptId "active" =
      (runFilters toLowerCase parseDate now employees searchValue deptId "").filter
        (fun emp => isActive parseDate now emp) := by
    rw [runFilters_eq_filter_all toLowerCase parseDate now employees searchValue deptId "active"]
    simp
  have hi : runFilters toLowerCase parseDate now employees searchValue deptId "inactive" =
      (runFilters toLowerCase parseDate now employees searchValue deptId "").filter
        (fun emp => !isActive parseDate now emp) := by
    rw [runFilters_eq_filter_all toLowerCase parseDate now employees searchValue deptId
      "inactive"]
    have h1 : ¬ ("inactive" = "active") := by decide
    simp only [h1, if_false, if_true]
  have hall := runFilters_no_status toLowerCase parseDate now employees searchValue deptId
  have hmem : ∀ emp : Employee,
      emp ∈ runFilters toLowerCase parseDate now employees searchValue deptId "" ↔
        emp ∈ employees ∧ matchesSearch toLowerCase searchValue emp = true ∧
          matchesDept deptId emp = true := by
    intro emp
    rw [hall, List.mem_filter, Bool.and_eq_true]
  refine ⟨ha, hi, ?_, ?_, ?_, ?_, ?_, hall, hmem, ?_, ?_, isActive_iff parseDate now⟩
  · intro emp
    rw [ha, hi, List.mem_filter, List.mem_filter]
    cases isActive parseDate now emp <;> simp
  · intro emp
    rw [ha, hi, List.mem_filter, List.mem_filter]
    cases isActive parseDate now emp <;> simp
  · rw [ha]; exact List.filter_sublist _
  · rw [hi]; exact List.filter_sublist _
  · rw [ha, hi]
    exact (List.length_eq_length_filter_add _).symm
  · intro emp he hs hd
    have hin := (hmem emp).mpr ⟨he, hs, hd⟩
    rw [ha, hi, List.mem_filter, List.mem_filter]
    cases hact : isActive parseDate now emp
    · right
      simp [hin]
    · left
      simp [hin]
  · intro emp hs hd
    have hp : (matchesSearch toLowerCase searchValue emp && matchesDept deptId emp) = true := by
      rw [hs, hd]; rfl
    rw [ha, hi, hall]
    cases hact : isActive parseDate now emp
    · have h1 : ((employees.filter fun emp =>
          matchesSearch toLowerCase searchValue emp && matchesDept deptId emp).filter
            fun emp => isActive parseDate now emp).count emp = 0 := by
        apply List.count_eq_zero_of_not_mem
        intro hm
        have := (List.mem_filter.mp hm).2
        rw [hact] at this
        exact Bool.false_ne_true this
      have h2 : ((employees.filter fun emp =>
          matchesSearch toLowerCase searchValue emp && matchesDept deptId emp).filter
            fun emp => !isActive parseDate now emp).count emp = employees.count emp := by
        have e1 : ((employees.filter fun emp =>
            matchesSearch toLowerCase searchValue emp && matchesDept deptId emp).filter
              fun emp => !isActive parseDate now emp).count emp =
            (employees.filter fun emp =>
              matchesSearch toLowerCase searchValue emp && matchesDept deptId emp).count emp :=
          List.count_filter (by simp [hact])
        have e2 : (employees.filter fun emp =>
            matchesSearch toLowerCase searchValue emp && matchesDept deptId emp).count emp =
            employees.count emp := List.count_filter hp
        rw [e1, e2]
      rw [h1, h2, zero_add]
    · have h1 : ((employees.filter fun emp =>
          matchesSearch toLowerCase searchValue emp && matchesDept deptId emp).filter
            fun emp => isActive parseDate now emp).count emp = employees.count emp := by
        have e1 : ((employees.filter fun emp =>
            matchesSearch toLowerCase searchValue emp && matchesDept deptId emp).filter
              fun emp => isActive parseDate now emp).count emp =
            (employees.filter fun emp =>
              matchesSearch toLowerCase searchValue emp && matchesDept deptId emp).count emp :=
          List.count_filter (by simp [hact])
        have e2 : (employees.filter fun emp =>
            matchesSearch toLowerCase searchValue emp && matchesDept deptId emp).count emp =
            employees.count emp := List.count_filter hp
        rw [e1, e2]
      have h2 : ((employees.filter fun emp =>
          matchesSearch toLowerCase searchValue emp && matchesDept deptId emp).filter
            fun emp => !isActive parseDate now emp).count emp = 0 := by
        apply List.count_eq_zero_of_not_mem
        intro hm
        have := (List.mem_filter.mp hm).2
        simp [hact] at this
      rw [h1, h2, add_zero]

end EmployeeDirectory

namespace PersonnelManagement

theorem uploadLoop_all_succeed (employees : List Employee) (id : String) (employee : Employee)
    (hfind : (employees.find? fun e => decide (e._id = id)) = some employee)
    (files : List PendingFile)
    (hall : ∀ f ∈ files, f.docResult.success = true ∧ f.versionResult.success = true) :
    (uploadLoop employees id files).2 = true ∧
    employeeLinkUpdates (uploadLoop employees id files).1 =
      files.map fun f =>
        employee.dokumente_list_custom_dms_dokumente.getD [] ++ [f.docResult._id] := by
  induction files with
  | nil => exact ⟨rfl, rfl⟩
  | cons f rest ih =>
    obtain ⟨h1, h2⟩ := hall f (List.mem_cons_self _ _)
    obtain ⟨ih1, ih2⟩ := ih fun g hg => hall g (List.mem_cons_of_mem _ hg)
    simp only [uploadLoop, h1, h2, hfind, if_true]
    refine ⟨ih1, ?_⟩
    simp only [employeeLinkUpdates, List.filterMap_cons, List.map_cons]
    exact congrArg _ ih2

/-- C29: when all API calls succeed, the employee-link update sent for each file
carries the employee's document list as held in `this.employees` followed by
only that file's new document id; the lists are not accumulated.  Hence, the
new ids being fresh and distinct, the last update does not contain the id of
any earlier file of the batch. -/
theorem handleFileUpload_links_not_accumulated (employees : List Employee) (id : String)
    (employee : Employee) (files : List PendingFile) (hid : id ≠ "")
    (hfind : (employees.find? fun e => decide (e._id = id)) = some employee)
    (hall : ∀ f ∈ files, f.docResult.success = true ∧ f.versionResult.success = true) :
    (handleFileUpload employees (some id) (some files)).2 = true ∧
    employeeLinkUpdates (handleFileUpload employees (some id) (some files)).1 =
      files.map (fun f =>
        employee.dokumente_list_custom_dms_dokumente.getD [] ++ [f.docResult._id]) ∧
    (∀ (i : Nat) (f g : PendingFile), files[i]? = some f → files.getLast? = some g →
      f.docResult._id ∉ employee.dokumente_list_custom_dms_dokumente.getD [] →
      f.docResult._id ≠ g.docResult._id →
      ∃ l, (employeeLinkUpdates
          (handleFileUpload employees (some id) (some files)).1).getLast? = some l ∧
        g.docResult._id ∈ l ∧ f.docResult._id ∉ l) := by
  have h0 : handleFileUpload employees (some id) (some files) = uploadLoop employees id files := by
    simp [handleFileUpload, hid]
  obtain ⟨h1, h2⟩ := uploadLoop_all_succeed employees id employee hfind files hall
  rw [h0]
  refine ⟨h1, h2, ?_⟩
  intro i f g _ hg hbase hne
  refine ⟨employee.dokumente_list_custom_dms_dokumente.getD [] ++ [g.docResult._id], ?_, ?_, ?_⟩
  · rw [h2, List.getLast?_map, hg]
    rfl
  · simp
  · intro hmem
    rcases List.mem_append.mp hmem with h | h
    · exact hbase h
    · exact hne (List.mem_singleton.mp h)

theorem handleFileUpload_links_not_accumulated_witness :
    "E1" ≠ "" ∧
    (handleFileUpload [⟨"E1", some ["d0"]⟩] (some "E1")
      (some [⟨"a.pdf", ⟨true, "d1"⟩, ⟨true, "v1"⟩⟩, ⟨"b.pdf", ⟨true, "d2"⟩, ⟨true, "v2"⟩⟩])).2
        = true ∧
    employeeLinkUpdates (handleFileUpload [⟨"E1", some ["d0"]⟩] (some "E1")
      (some [⟨"a.pdf", ⟨true, "d1"⟩, ⟨true, "v1"⟩⟩, ⟨"b.pdf", ⟨true, "d2"⟩, ⟨true, "v2"⟩⟩])).1 =
      ([⟨"a.pdf", ⟨true, "d1"⟩, ⟨true, "v1"⟩⟩, ⟨"b.pdf", ⟨true, "d2"⟩, ⟨true, "v2"⟩⟩] :
        List PendingFile).map (fun f =>
          (⟨"E1", some ["d0"]⟩ : Employee).dokumente_list_custom_dms_dokumente.getD [] ++
            [f.docResult._id]) ∧
    (∀ (i : Nat) (f g : PendingFile),
      ([⟨"a.pdf", ⟨true, "d1"⟩, ⟨true, "v1"⟩⟩, ⟨"b.pdf", ⟨true, "d2"⟩, ⟨true, "v2"⟩⟩] :
        List PendingFile)[i]? = some f →
      ([⟨"a.pdf", ⟨true, "d1"⟩, ⟨true, "v1"⟩⟩, ⟨"b.pdf", ⟨true, "d2"⟩, ⟨true, "v2"⟩⟩] :
        List PendingFile).getLast? = some g →
      f.docResult._id ∉
        (⟨"E1", some ["d0"]⟩ : Employee).dokumente_list_custom_dms_dokumente.getD [] →
      f.docResult._id ≠ g.docResult._id →
      ∃ l, (employeeLinkUpdates (handleFileUpload [⟨"E1", some ["d0"]⟩] (some "E1")
          (some [⟨"a.pdf", ⟨true, "d1"⟩, ⟨true, "v1"⟩⟩,
            ⟨"b.pdf", ⟨true, "d2"⟩, ⟨true, "v2"⟩⟩])).1).getLast? = some l ∧
        g.docResult._id ∈ l ∧ f.docResult._id ∉ l) :=
  ⟨by decide, handleFileUpload_links_not_accumulated [⟨"E1", some ["d0"]⟩] "E1"
    ⟨"E1", some ["d0"]⟩
    [⟨"a.pdf", ⟨true, "d1"⟩, ⟨true, "v1"⟩⟩, ⟨"b.pdf", ⟨true, "d2"⟩, ⟨true, "v2"⟩⟩]
    (by decide) (by decide) (by decide)⟩

end PersonnelManagement

namespace JSNumber

/-! ## Rounding to double precision -/

theorem floor_le_roundHalfEven (y : ℚ) : ⌊y⌋ ≤ roundHalfEven y := by
  unfold roundHalfEven
  split_ifs <;> omega

theorem roundHalfEven_le_floor_succ (y : ℚ) : roundHalfEven y ≤ ⌊y⌋ + 1 := by
  unfold roundHalfEven
  split_ifs <;> omega

theorem roundHalfEven_intCast (n : ℤ) : roundHalfEven (n : ℚ) = n := by
  unfold roundHalfEven
  rw [Int.floor_intCast]
  simp

theorem roundHalfEven_of_lt (y : ℚ) (f : ℤ) (h1 : (f : ℚ) ≤ y) (h2 : y - f < 1 / 2) :
    roundHalfEven y = f := by
  have hf : ⌊y⌋ = f := Int.floor_eq_iff.mpr ⟨h1, by linarith⟩
  unfold roundHalfEven
  rw [hf, if_pos h2]

theorem roundHalfEven_of_gt (y : ℚ) (f : ℤ) (h1 : 1 / 2 < y - f) (h2 : y < f + 1) :
    roundHalfEven y = f + 1 := by
  have hf : ⌊y⌋ = f := Int.floor_eq_iff.mpr ⟨by linarith, h2⟩
  unfold roundHalfEven
  rw [hf, if_neg (by linarith), if_pos h1]

theorem roundHalfEven_of_tie_even (y : ℚ) (f : ℤ) (h1 : y - f = 1 / 2) (h2 : f % 2 = 0) :
    roundHalfEven y = f := by
  have hf : ⌊y⌋ = f := Int.floor_eq_iff.mpr ⟨by linarith, by linarith⟩
  unfold roundHalfEven
  rw [hf, if_neg (by linarith), if_neg (by linarith), if_pos h2]

theorem roundHalfEven_le_of_le (y : ℚ) (n : ℤ) (h : y ≤ n) : roundHalfEven y ≤ n := by
  rcases eq_or_lt_of_le h with h' | h'
  · rw [h', roundHalfEven_intCast]
  · have : ⌊y⌋ < n := Int.floor_lt.mpr h'
    have := roundHalfEven_le_floor_succ y
    omega

theorem le_roundHalfEven_of_le (y : ℚ) (n : ℤ) (h : (n : ℚ) ≤ y) : n ≤ roundHalfEven y :=
  (Int.le_floor.mpr h).trans (floor_le_roundHalfEven y)

theorem roundHalfEven_mono {y₁ y₂ : ℚ} (h : y₁ ≤ y₂) : roundHalfEven y₁ ≤ roundHalfEven y₂ := by
  have hfl : ⌊y₁⌋ ≤ ⌊y₂⌋ := Int.floor_mono h
  rcases eq_or_lt_of_le hfl with he | hl
  · unfold roundHalfEven
    rw [← he]
    split_ifs <;> first | omega | (exfalso; linarith)
  · have h1 := roundHalfEven_le_floor_succ y₁
    have h2 := floor_le_roundHalfEven y₂
    omega

theorem two_zpow_pos (z : ℤ) : (0 : ℚ) < 2 ^ z := zpow_pos (by norm_num) z

theorem zpow_log_le (q : ℚ) (hq : 0 < q) : (2 : ℚ) ^ Int.log 2 q ≤ q := by
  have h := Int.zpow_log_le_self (b := 2) (r := q) (by norm_num) hq
  simpa using h

theorem lt_zpow_log_succ (q : ℚ) : q < (2 : ℚ) ^ (Int.log 2 q + 1) := by
  have h := Int.lt_zpow_succ_log_self (b := 2) (by norm_num) q
  simpa using h

theorem log_eq_of_bounds (q : ℚ) (e : ℤ) (h1 : (2 : ℚ) ^ e ≤ q) (h2 : q < (2 : ℚ) ^ (e + 1)) :
    Int.log 2 q = e := by
  have hq : 0 < q := lt_of_lt_of_le (two_zpow_pos e) h1
  have ha : e ≤ Int.log 2 q :=
    (Int.zpow_le_iff_le_log (b := 2) (by norm_num) hq).mp (by simpa using h1)
  have hb : Int.log 2 q < e + 1 :=
    (Int.lt_zpow_iff_log_lt (b := 2) (by norm_num) hq).mp (by simpa using h2)
  omega

theorem toDouble_zero : toDouble 0 = 0 := by simp [toDouble]

theorem toDouble_of_pos (q : ℚ) (hq : 0 < q) :
    toDouble q = (roundHalfEven (q / 2 ^ (Int.log 2 q - 52)) : ℚ) * 2 ^ (Int.log 2 q - 52) := by
  unfold toDouble
  rw [if_neg (ne_of_gt hq), abs_of_pos hq]

/-- Evaluation of `toDouble` from the exponent and the rounded significand. -/
theorem toDouble_eval (q : ℚ) (e m : ℤ) (h1 : (2 : ℚ) ^ e ≤ q) (h2 : q < (2 : ℚ) ^ (e + 1))
    (hm : roundHalfEven (q / 2 ^ (e - 52)) = m) : toDouble q = (m : ℚ) * 2 ^ (e - 52) := by
  have hq : 0 < q := lt_of_lt_of_le (two_zpow_pos e) h1
  rw [toDouble_of_pos q hq, log_eq_of_bounds q e h1 h2, hm]

theorem scaled_bounds (q : ℚ) (hq : 0 < q) :
    (((2 : ℤ) ^ 52 : ℤ) : ℚ) ≤ q / 2 ^ (Int.log 2 q - 52) ∧
      q / 2 ^ (Int.log 2 q - 52) < (((2 : ℤ) ^ 53 : ℤ) : ℚ) := by
  have hu := two_zpow_pos (Int.log 2 q - 52)
  have h1 := zpow_log_le q hq
  have h2 := lt_zpow_log_succ q
  have e1 : (2 : ℚ) ^ Int.log 2 q = 2 ^ (52 : ℤ) * 2 ^ (Int.log 2 q - 52) := by
    rw [← zpow_add₀ (by norm_num : (2 : ℚ) ≠ 0)]; congr 1; ring
  have e2 : (2 : ℚ) ^ (Int.log 2 q + 1) = 2 ^ (53 : ℤ) * 2 ^ (Int.log 2 q - 52) := by
    rw [← zpow_add₀ (by norm_num : (2 : ℚ) ≠ 0)]; congr 1; ring
  constructor
  · rw [le_div_iff₀ hu]
    calc (((2 : ℤ) ^ 52 : ℤ) : ℚ) * 2 ^ (Int.log 2 q - 52)
        = 2 ^ (52 : ℤ) * 2 ^ (Int.log 2 q - 52) := by norm_num
      _ = 2 ^ Int.log 2 q := e1.symm
      _ ≤ q := h1
  · rw [div_lt_iff₀ hu]
    calc q < 2 ^ (Int.log 2 q + 1) := h2
      _ = 2 ^ (53 : ℤ) * 2 ^ (Int.log 2 q - 52) := e2
      _ = (((2 : ℤ) ^ 53 : ℤ) : ℚ) * 2 ^ (Int.log 2 q - 52) := by norm_num

theorem significand_bounds (q : ℚ) (hq : 0 < q) :
    (2 : ℤ) ^ 52 ≤ roundHalfEven (q / 2 ^ (Int.log 2 q - 52)) ∧
      roundHalfEven (q / 2 ^ (Int.log 2 q - 52)) ≤ (2 : ℤ) ^ 53 :=
  ⟨le_roundHalfEven_of_le _ _ (scaled_bounds q hq).1,
    roundHalfEven_le_of_le _ _ (le_of_lt (scaled_bounds q hq).2)⟩

theorem zpow_log_le_toDouble (q : ℚ) (hq : 0 < q) : (2 : ℚ) ^ Int.log 2 q ≤ toDouble q := by
  rw [toDouble_of_pos q hq]
  have hu := two_zpow_pos (Int.log 2 q - 52)
  have hm : (((2 : ℤ) ^ 52 : ℤ) : ℚ) ≤ (roundHalfEven (q / 2 ^ (Int.log 2 q - 52)) : ℚ) := by
    exact_mod_cast (significand_bounds q hq).1
  calc (2 : ℚ) ^ Int.log 2 q = 2 ^ (52 : ℤ) * 2 ^ (Int.log 2 q - 52) := by
        rw [← zpow_add₀ (by norm_num : (2 : ℚ) ≠ 0)]; congr 1; ring
    _ = (((2 : ℤ) ^ 52 : ℤ) : ℚ) * 2 ^ (Int.log 2 q - 52) := by norm_num
    _ ≤ _ := mul_le_mul_of_nonneg_right hm (le_of_lt hu)

theorem toDouble_le_zpow_log_succ (q : ℚ) (hq : 0 < q) :
    toDouble q ≤ (2 : ℚ) ^ (Int.log 2 q + 1) := by
  rw [toDouble_of_pos q hq]
  have hu := two_zpow_pos (Int.log 2 q - 52)
  have hm : (roundHalfEven (q / 2 ^ (Int.log 2 q - 52)) : ℚ) ≤ (((2 : ℤ) ^ 53 : ℤ) : ℚ) := by
    exact_mod_cast (significand_bounds q hq).2
  calc _ ≤ (((2 : ℤ) ^ 53 : ℤ) : ℚ) * 2 ^ (Int.log 2 q - 52) :=
        mul_le_mul_of_nonneg_right hm (le_of_lt hu)
    _ = 2 ^ (53 : ℤ) * 2 ^ (Int.log 2 q - 52) := by norm_num
    _ = (2 : ℚ) ^ (Int.log 2 q + 1) := by
        rw [← zpow_add₀ (by norm_num : (2 : ℚ) ≠ 0)]; congr 1; ring

theorem toDouble_pos (q : ℚ) (hq : 0 < q) : 0 < toDouble q :=
  lt_of_lt_of_le (two_zpow_pos _) (zpow_log_le_toDouble q hq)

theorem toDouble_nonneg (q : ℚ) (hq : 0 ≤ q) : 0 ≤ toDouble q := by
  rcases eq_or_lt_of_le hq with h | h
  · rw [← h, toDouble_zero]
  · exact le_of_lt (toDouble_pos q h)

theorem toDouble_mono {q₁ q₂ : ℚ} (h0 : 0 ≤ q₁) (h : q₁ ≤ q₂) : toDouble q₁ ≤ toDouble q₂ := by
  rcases eq_or_lt_of_le h0 with h0' | h0'
  · rw [← h0', toDouble_zero]
    exact toDouble_nonneg q₂ (h0.trans h)
  · have hq2 : 0 < q₂ := lt_of_lt_of_le h0' h
    have hlog : Int.log 2 q₁ ≤ Int.log 2 q₂ := Int.log_mono_right h0' h
    rcases eq_or_lt_of_le hlog with he | hl
    · rw [toDouble_of_pos q₁ h0', toDouble_of_pos q₂ hq2, he]
      have hu := two_zpow_pos (Int.log 2 q₂ - 52)
      have hdiv : q₁ / 2 ^ (Int.log 2 q₂ - 52) ≤ q₂ / 2 ^ (Int.log 2 q₂ - 52) :=
        div_le_div_of_nonneg_right h (le_of_lt hu)
      have hr := roundHalfEven_mono hdiv
      have hr' : (roundHalfEven (q₁ / 2 ^ (Int.log 2 q₂ - 52)) : ℚ) ≤
          (roundHalfEven (q₂ / 2 ^ (Int.log 2 q₂ - 52)) : ℚ) := by exact_mod_cast hr
      exact mul_le_mul_of_nonneg_right hr' (le_of_lt hu)
    · calc toDouble q₁ ≤ (2 : ℚ) ^ (Int.log 2 q₁ + 1) := toDouble_le_zpow_log_succ q₁ h0'
        _ ≤ (2 : ℚ) ^ Int.log 2 q₂ := zpow_le_zpow_right₀ (by norm_num) (by omega)
        _ ≤ toDouble q₂ := zpow_log_le_toDouble q₂ hq2

/-- A positive value whose significand is an integer at its own exponent is a
double. -/
theorem toDouble_of_scaled_int (x : ℚ) (hx : 0 < x) (k : ℤ)
    (hk : x / 2 ^ (Int.log 2 x - 52) = k) : toDouble x = x := by
  rw [toDouble_of_pos x hx, hk, roundHalfEven_intCast, ← hk]
  exact div_mul_cancel₀ _ (ne_of_gt (two_zpow_pos _))

theorem toDouble_idem (q : ℚ) (hq : 0 ≤ q) : toDouble (toDouble q) = toDouble q := by
  rcases eq_or_lt_of_le hq with h | h
  · rw [← h, toDouble_zero, toDouble_zero]
  · have hpos := toDouble_pos q h
    have hu := two_zpow_pos (Int.log 2 q - 52)
    obtain ⟨hm1, hm2⟩ := significand_bounds q h
    rcases eq_or_lt_of_le hm2 with htop | hlt
    · have hval : toDouble q = (2 : ℚ) ^ (Int.log 2 q + 1) := by
        rw [toDouble_of_pos q h, htop]
        calc (((2 : ℤ) ^ 53 : ℤ) : ℚ) * 2 ^ (Int.log 2 q - 52)
            = 2 ^ (53 : ℤ) * 2 ^ (Int.log 2 q - 52) := by norm_num
          _ = (2 : ℚ) ^ (Int.log 2 q + 1) := by
              rw [← zpow_add₀ (by norm_num : (2 : ℚ) ≠ 0)]; congr 1; ring
      rw [hval]
      have hlog : Int.log 2 ((2 : ℚ) ^ (Int.log 2 q + 1)) = Int.log 2 q + 1 := by
        have := Int.log_zpow (R := ℚ) (b := 2) (by norm_num) (Int.log 2 q + 1)
        simpa using this
      apply toDouble_of_scaled_int _ (two_zpow_pos _) ((2 : ℤ) ^ 52)
      rw [hlog, div_eq_iff (ne_of_gt (two_zpow_pos _))]
      calc (2 : ℚ) ^ (Int.log 2 q + 1) = 2 ^ (52 : ℤ) * 2 ^ (Int.log 2 q + 1 - 52) := by
            rw [← zpow_add₀ (by norm_num : (2 : ℚ) ≠ 0)]; congr 1; ring
        _ = _ := by norm_num
    · have hval := toDouble_of_pos q h
      have hlog : Int.log 2 (toDouble q) = Int.log 2 q := by
        apply log_eq_of_bounds
        · exact zpow_log_le_toDouble q h
        · rw [hval]
          have hm : (roundHalfEven (q / 2 ^ (Int.log 2 q - 52)) : ℚ) <
              (((2 : ℤ) ^ 53 : ℤ) : ℚ) := by exact_mod_cast hlt
          calc _ < (((2 : ℤ) ^ 53 : ℤ) : ℚ) * 2 ^ (Int.log 2 q - 52) :=
                mul_lt_mul_of_pos_right hm hu
            _ = 2 ^ (53 : ℤ) * 2 ^ (Int.log 2 q - 52) := by norm_num
            _ = (2 : ℚ) ^ (Int.log 2 q + 1) := by
                rw [← zpow_add₀ (by norm_num : (2 : ℚ) ≠ 0)]; congr 1; ring
      apply toDouble_of_scaled_int _ hpos (roundHalfEven (q / 2 ^ (Int.log 2 q - 52)))
      rw [hlog, hval]
      exact mul_div_cancel_right₀ _ (ne_of_gt hu)

theorem toDouble_natCast (n : ℕ) (hn : n < 2 ^ 53) : toDouble (n : ℚ) = n := by
  rcases Nat.eq_zero_or_pos n with h0 | hpos
  · subst h0; simp [toDouble_zero]
  · have hq : (0 : ℚ) < n := by exact_mod_cast hpos
    have hlt : (n : ℚ) < (2 : ℚ) ^ (53 : ℤ) := by
      have : (n : ℚ) < ((2 ^ 53 : ℕ) : ℚ) := by exact_mod_cast hn
      calc (n : ℚ) < ((2 ^ 53 : ℕ) : ℚ) := this
        _ = (2 : ℚ) ^ (53 : ℤ) := by norm_num
    have hlog : Int.log 2 (n : ℚ) < 53 :=
      (Int.lt_zpow_iff_log_lt (b := 2) (by norm_num) hq).mp (by simpa using hlt)
    obtain ⟨d, hd⟩ : ∃ d : ℕ, (d : ℤ) = 52 - Int.log 2 (n : ℚ) :=
      ⟨(52 - Int.log 2 (n : ℚ)).toNat, Int.toNat_of_nonneg (by omega)⟩
    apply toDouble_of_scaled_int _ hq ((n : ℤ) * 2 ^ d)
    have he : Int.log 2 (n : ℚ) - 52 = -(d : ℤ) := by omega
    rw [he, zpow_neg, zpow_natCast]
    push_cast
    field_simp

theorem roundHalfEven_of_tie_odd (y : ℚ) (f : ℤ) (h1 : y - f = 1 / 2) (h2 : f % 2 = 1) :
    roundHalfEven y = f + 1 := by
  have hf : ⌊y⌋ = f := Int.floor_eq_iff.mpr ⟨by linarith, by linarith⟩
  unfold roundHalfEven
  rw [hf, if_neg (by linarith), if_neg (by linarith), if_neg (by omega)]

theorem mathRound_eq (x : ℚ) (k : ℤ) (h1 : (k : ℚ) ≤ x + 1 / 2) (h2 : x + 1 / 2 < k + 1) :
    mathRound x = k :=
  Int.floor_eq_iff.mpr ⟨h1, h2⟩

theorem toDouble_one : toDouble 1 = 1 := by
  have h := toDouble_natCast 1 (by norm_num)
  simpa using h

theorem toDouble_hundred : toDouble 100 = 100 := by
  have h := toDouble_natCast 100 (by norm_num)
  simpa using h

theorem abs_roundHalfEven_sub_le (y : ℚ) : |(roundHalfEven y : ℚ) - y| ≤ 1 / 2 := by
  have h1 := Int.floor_le y
  have h2 := Int.lt_floor_add_one y
  rw [abs_le]
  unfold roundHalfEven
  split_ifs <;> push_cast <;> constructor <;> linarith

theorem abs_toDouble_sub_le (q : ℚ) (hq : 0 < q) : |toDouble q - q| ≤ q / 2 ^ 53 := by
  have hu := two_zpow_pos (Int.log 2 q - 52)
  have hr := abs_roundHalfEven_sub_le (q / 2 ^ (Int.log 2 q - 52))
  have hq' : q / 2 ^ (Int.log 2 q - 52) * 2 ^ (Int.log 2 q - 52) = q :=
    div_mul_cancel₀ _ (ne_of_gt hu)
  have hval : toDouble q - q =
      ((roundHalfEven (q / 2 ^ (Int.log 2 q - 52)) : ℚ) - q / 2 ^ (Int.log 2 q - 52)) *
        2 ^ (Int.log 2 q - 52) := by
    rw [toDouble_of_pos q hq, sub_mul, hq']
  have hule : (2 : ℚ) ^ (Int.log 2 q - 52) ≤ q / 2 ^ 52 := by
    rw [le_div_iff₀ (by norm_num)]
    calc (2 : ℚ) ^ (Int.log 2 q - 52) * 2 ^ 52
        = 2 ^ (Int.log 2 q - 52) * 2 ^ (52 : ℤ) := by norm_num
      _ = 2 ^ Int.log 2 q := by
          rw [← zpow_add₀ (by norm_num : (2 : ℚ) ≠ 0)]; congr 1; ring
      _ ≤ q := zpow_log_le q hq
  rw [hval, abs_mul, abs_of_pos hu]
  calc _ ≤ 1 / 2 * 2 ^ (Int.log 2 q - 52) := mul_le_mul_of_nonneg_right hr (le_of_lt hu)
    _ ≤ 1 / 2 * (q / 2 ^ 52) := mul_le_mul_of_nonneg_left hule (by norm_num)
    _ = q / 2 ^ 53 := by ring

/-- The error of `(d / t) * 100` computed in double precision. -/
theorem abs_percent_sub_le (d t : ℕ) (ht : 0 < t) (hd : d ≤ t) :
    |toDouble (toDouble ((d : ℚ) / t) * 100) - 100 * d / t| ≤ 201 / 2 ^ 53 := by
  have htq : (0 : ℚ) < t := by exact_mod_cast ht
  rcases Nat.eq_zero_or_pos d with h0 | hpos
  · subst h0
    simp [toDouble_zero]
    positivity
  · have hdq : (0 : ℚ) < d := by exact_mod_cast hpos
    have hq : (0 : ℚ) < (d : ℚ) / t := div_pos hdq htq
    have hq1 : (d : ℚ) / t ≤ 1 := by
      rw [div_le_one htq]; exact_mod_cast hd
    have e1 := abs_toDouble_sub_le _ hq
    have hx1 := toDouble_pos _ hq
    have hp : 0 < toDouble ((d : ℚ) / t) * 100 := by positivity
    have e2 := abs_toDouble_sub_le _ hp
    rw [abs_le] at e1 e2 ⊢
    have hb : (d : ℚ) / t / 2 ^ 53 ≤ 1 / 2 ^ 53 :=
      div_le_div_of_nonneg_right hq1 (by positivity)
    have hx : (100 : ℚ) * d / t = 100 * ((d : ℚ) / t) := by ring
    have hpb : toDouble ((d : ℚ) / t) * 100 ≤ 101 := by nlinarith [e1.2]
    have hb2 : toDouble ((d : ℚ) / t) * 100 / 2 ^ 53 ≤ 101 / 2 ^ 53 :=
      div_le_div_of_nonneg_right hpb (by positivity)
    rw [hx]
    constructor <;> nlinarith [e1.1, e1.2, e2.1, e2.2]

/-- `Math.round` of the double `(d / t) * 100` is the half-up rounding of
`100 * d / t`, except possibly at an exact tie, where it can be one less. -/
theorem mathRound_percent (d t : ℕ) (ht : 0 < t) (hd : d ≤ t) (hbound : t < 2 ^ 32) :
    mathRound (toDouble (toDouble ((d : ℚ) / t) * 100)) = mathRound (100 * d / t) ∨
    (mathRound (toDouble (toDouble ((d : ℚ) / t) * 100)) = mathRound (100 * d / t) - 1 ∧
      (100 * d / t : ℚ) + 1 / 2 = mathRound (100 * d / t)) := by
  have htq : (0 : ℚ) < t := by exact_mod_cast ht
  have herr := abs_percent_sub_le d t ht hd
  rw [abs_le] at herr
  have hK1 : ((mathRound (100 * d / t) : ℤ) : ℚ) ≤ (100 * d / t : ℚ) + 1 / 2 := Int.floor_le _
  have hK2 : (100 * d / t : ℚ) + 1 / 2 < (mathRound (100 * d / t) : ℚ) + 1 :=
    Int.lt_floor_add_one _
  generalize mathRound (100 * d / t) = K at hK1 hK2 ⊢
  generalize toDouble (toDouble ((d : ℚ) / t) * 100) = x2 at herr ⊢
  have hsmall : (201 : ℚ) / 2 ^ 53 < 1 / (2 * t) := by
    have h2t : (2 : ℚ) * t < 2 ^ 33 := by
      have : (t : ℚ) < ((2 ^ 32 : ℕ) : ℚ) := by exact_mod_cast hbound
      push_cast at this
      linarith
    have h3 : (1 : ℚ) / 2 ^ 33 < 1 / (2 * t) :=
      one_div_lt_one_div_of_lt (by positivity) h2t
    have h4 : (201 : ℚ) / 2 ^ 53 < 1 / 2 ^ 33 := by norm_num
    exact h4.trans h3
  have hlt1 : (201 : ℚ) / 2 ^ 53 < 1 := by norm_num
  rcases eq_or_lt_of_le hK1 with htie | hstrict
  · by_cases hlow : x2 + 1 / 2 < K
    · right
      refine ⟨mathRound_eq x2 (K - 1) ?_ ?_, htie.symm⟩
      · push_cast; linarith [herr.1]
      · push_cast; linarith
    · left
      exact mathRound_eq x2 K (by linarith) (by linarith [herr.2])
  · left
    have hx : (100 * d / t : ℚ) * (2 * t) = 200 * d := by field_simp; ring
    have hN : (0 : ℚ) < ((200 * d + t - 2 * K * t : ℤ) : ℚ) := by
      push_cast
      nlinarith
    have hN1 : (1 : ℚ) ≤ ((200 * d + t - 2 * K * t : ℤ) : ℚ) := by
      exact_mod_cast Int.add_one_le_iff.mpr (Int.cast_pos.mp hN)
    have hM : (0 : ℚ) < ((2 * K * t + t - 200 * d : ℤ) : ℚ) := by
      push_cast
      nlinarith
    have hM1 : (1 : ℚ) ≤ ((2 * K * t + t - 200 * d : ℤ) : ℚ) := by
      exact_mod_cast Int.add_one_le_iff.mpr (Int.cast_pos.mp hM)
    push_cast at hN1 hM1
    have h2t : (0 : ℚ) < 2 * t := by positivity
    have hlo : (1 : ℚ) / (2 * t) ≤ (100 * d / t : ℚ) + 1 / 2 - K := by
      rw [div_le_iff₀ h2t]
      nlinarith
    have hhi : (1 : ℚ) / (2 * t) ≤ K + 1 - ((100 * d / t : ℚ) + 1 / 2) := by
      rw [div_le_iff₀ h2t]
      nlinarith
    exact mathRound_eq x2 K (by linarith [herr.1]) (by linarith [herr.2])

theorem percent_bounds (d t : ℕ) (ht : 0 < t) (hd : d ≤ t) :
    0 ≤ mathRound (toDouble (toDouble ((d : ℚ) / t) * 100)) ∧
      mathRound (toDouble (toDouble ((d : ℚ) / t) * 100)) ≤ 100 := by
  have htq : (0 : ℚ) < t := by exact_mod_cast ht
  have hq0 : (0 : ℚ) ≤ (d : ℚ) / t := by positivity
  have hq1 : (d : ℚ) / t ≤ 1 := by
    rw [div_le_one htq]; exact_mod_cast hd
  have h1 : 0 ≤ toDouble ((d : ℚ) / t) := toDouble_nonneg _ hq0
  have h2 : toDouble ((d : ℚ) / t) ≤ 1 := by
    have := toDouble_mono hq0 hq1
    rwa [toDouble_one] at this
  have h3 : 0 ≤ toDouble (toDouble ((d : ℚ) / t) * 100) := toDouble_nonneg _ (by positivity)
  have h4 : toDouble (toDouble ((d : ℚ) / t) * 100) ≤ 100 := by
    have := @toDouble_mono (toDouble ((d : ℚ) / t) * 100) 100 (by positivity) (by linarith)
    rwa [toDouble_hundred] at this
  constructor
  · exact Int.floor_nonneg.mpr (by linarith)
  · have : mathRound (toDouble (toDouble ((d : ℚ) / t) * 100)) < 101 :=
      Int.floor_lt.mpr (by push_cast; linarith)
    omega

end JSNumber

namespace ServicePortal

/-! ## Progress in the header -/

theorem length_filter_stopsWithDone (done total : Nat) (h : done ≤ total) :
    ((stopsWithDone done total).filter fun s => s.completed_boolean).length = done ∧
    (stopsWithDone done total).length = total := by
  constructor
  · simp [stopsWithDone, List.filter_append, List.filter_replicate, mkStop]
  · simp [stopsWithDone]
    omega

theorem updateHeaderStats_stopsWithDone (done total : Nat) (h : done ≤ total) (ht : total ≠ 0) :
    updateHeaderStats { State.init with stops := stopsWithDone done total } =
      (done, total,
        JSNumber.mathRound (JSNumber.toDouble (JSNumber.toDouble ((done : ℚ) / total) * 100))) := by
  obtain ⟨h1, h2⟩ := length_filter_stopsWithDone done total h
  simp only [updateHeaderStats, h1, h2, if_neg ht, JSNumber.mul, JSNumber.div]

/-- C27, as stated, fails: with 23 of 40 stops completed the quotient `23 / 40`
and the product with 100 are both rounded to double precision, the product is
`57.49999999999999`, and `Math.round` gives 57, whereas `100 * 23 / 40 = 57.5`
rounded half up is 58. -/
theorem updateHeaderStats_rounding_counterexample :
    updateHeaderStats { State.init with stops := stopsWithDone 23 40 } = (23, 40, 57) ∧
    JSNumber.mul (JSNumber.div 23 40) 100 = 8092405580431359 / 140737488355328 ∧
    JSNumber.mathRound (100 * 23 / 40) = 58 := by
  have hdiv : JSNumber.toDouble ((23 : ℚ) / 40) = 2589569785738035 / 4503599627370496 := by
    rw [JSNumber.toDouble_eval (23 / 40) (-1) 5179139571476070 (by norm_num) (by norm_num)
      (JSNumber.roundHalfEven_of_lt _ _ (by norm_num) (by norm_num))]
    norm_num
  have hmul : JSNumber.toDouble ((2589569785738035 : ℚ) / 4503599627370496 * 100) =
      8092405580431359 / 140737488355328 := by
    rw [JSNumber.toDouble_eval _ 5 8092405580431359 (by norm_num) (by norm_num)
      (JSNumber.roundHalfEven_of_lt _ _ (by norm_num) (by norm_num))]
    norm_num
  refine ⟨?_, ?_, ?_⟩
  · rw [updateHeaderStats_stopsWithDone 23 40 (by norm_num) (by norm_num)]
    have : ((23 : ℕ) : ℚ) / ((40 : ℕ) : ℚ) = 23 / 40 := by norm_num
    rw [this, hdiv, hmul]
    have : JSNumber.mathRound ((8092405580431359 : ℚ) / 140737488355328) = 57 :=
      JSNumber.mathRound_eq _ 57 (by norm_num) (by norm_num)
    rw [this]
  · simp only [JSNumber.mul, JSNumber.div]
    rw [hdiv, hmul]
  · exact JSNumber.mathRound_eq _ 58 (by norm_num) (by norm_num)

/-- C27 (amended): the progress percentage is an integer between 0 and 100; it
is 0 for the empty list (nothing is divided then), 100 when the list is not
empty and all stops are completed, and in general `Math.round` of the double
`(done / total) * 100`.  For a list of fewer than `2 ^ 32` stops this is
`100 * done / total` rounded half up, except when `100 * done / total` lies
exactly halfway between two integers, where it can be the lower one. -/
theorem updateHeaderStats_percent (st : State) :
    (updateHeaderStats st).1 = (st.stops.filter fun s => s.completed_boolean).length ∧
    (updateHeaderStats st).2.1 = st.stops.length ∧
    0 ≤ (updateHeaderStats st).2.2 ∧ (updateHeaderStats st).2.2 ≤ 100 ∧
    (st.stops = [] → (updateHeaderStats st).2.2 = 0) ∧
    (st.stops ≠ [] → (∀ s ∈ st.stops, s.completed_boolean = true) →
      (updateHeaderStats st).2.2 = 100) ∧
    (st.stops ≠ [] → (updateHeaderStats st).2.2 =
      JSNumber.mathRound (JSNumber.mul
        (JSNumber.div (updateHeaderStats st).1 (updateHeaderStats st).2.1) 100)) ∧
    (st.stops ≠ [] → st.stops.length < 2 ^ 32 →
      (updateHeaderStats st).2.2 =
          JSNumber.mathRound (100 * (updateHeaderStats st).1 / (updateHeaderStats st).2.1) ∨
        ((updateHeaderStats st).2.2 =
          JSNumber.mathRound (100 * (updateHeaderStats st).1 / (updateHeaderStats st).2.1) - 1 ∧
          (100 * (updateHeaderStats st).1 / (updateHeaderStats st).2.1 : ℚ) + 1 / 2 =
            JSNumber.mathRound
              (100 * (updateHeaderStats st).1 / (updateHeaderStats st).2.1))) := by
  have hd : (st.stops.filter fun s => s.completed_boolean).length ≤ st.stops.length :=
    List.length_filter_le _ _
  have hpos : st.stops ≠ [] → 0 < st.stops.length := fun h => List.length_pos.mpr h
  have hval : st.stops ≠ [] → (updateHeaderStats st).2.2 =
      JSNumber.mathRound (JSNumber.toDouble (JSNumber.toDouble
        (((st.stops.filter fun s => s.completed_boolean).length : ℚ) / st.stops.length) * 100)) := by
    intro h
    have h0 : st.stops.length ≠ 0 := Nat.pos_iff_ne_zero.mp (hpos h)
    simp only [updateHeaderStats, if_neg h0, JSNumber.mul, JSNumber.div]
  have hb : 0 ≤ (updateHeaderStats st).2.2 ∧ (updateHeaderStats st).2.2 ≤ 100 := by
    by_cases h : st.stops = []
    · simp [updateHeaderStats, h]
    · rw [hval h]
      exact JSNumber.percent_bounds _ _ (hpos h) hd
  refine ⟨rfl, rfl, hb.1, hb.2, ?_, ?_, ?_, ?_⟩
  · intro h
    simp [updateHeaderStats, h]
  · intro h hall
    rw [hval h]
    have hf : (st.stops.filter fun s => s.completed_boolean) = st.stops :=
      List.filter_eq_self.mpr hall
    have hne : (st.stops.length : ℚ) ≠ 0 := by
      have := hpos h
      exact_mod_cast Nat.pos_iff_ne_zero.mp this
    rw [hf, div_self hne, JSNumber.toDouble_one, one_mul, JSNumber.toDouble_hundred]
    exact JSNumber.mathRound_eq _ 100 (by norm_num) (by norm_num)
  · intro h
    rw [hval h]
    rfl
  · intro h hlen
    rw [hval h]
    exact JSNumber.mathRound_percent _ _ (hpos h) hd hlen

end ServicePortal

namespace ApPortal

/-! ## KPI sums -/

theorem dreiBelege_sums :
    (renderKPIs dreiBelege).totalBrutto =
      JSNumber.add (JSNumber.add (JSNumber.add 0 (JSNumber.toDouble (1 / 10)))
        (JSNumber.toDouble (2 / 10))) (JSNumber.toDouble (3 / 10)) ∧
    (renderKPIs dreiBelege).pendingSum =
      JSNumber.add (JSNumber.add 0 (JSNumber.toDouble (2 / 10))) (JSNumber.toDouble (3 / 10)) ∧
    paidSum dreiBelege = JSNumber.add 0 (JSNumber.toDouble (1 / 10)) :=
  ⟨rfl, rfl, rfl⟩

/-- C24, as stated, fails: for invoices over 0.10 (paid), 0.20 and 0.30 (pending)
the total is `0.6000000000000001`, the pending sum is `0.5` and the paid sum is
`0.1`, and the total equals neither their exact sum nor their sum as numbers
(`0.6`). -/
theorem renderKPIs_rounding_counterexample :
    (renderKPIs dreiBelege).totalBrutto = 1351079888211149 / 2251799813685248 ∧
    (renderKPIs dreiBelege).pendingSum = 1 / 2 ∧
    paidSum dreiBelege = 3602879701896397 / 36028797018963968 ∧
    JSNumber.add (renderKPIs dreiBelege).pendingSum (paidSum dreiBelege) =
      5404319552844595 / 9007199254740992 ∧
    (renderKPIs dreiBelege).totalBrutto ≠
      (renderKPIs dreiBelege).pendingSum + paidSum dreiBelege ∧
    (renderKPIs dreiBelege).totalBrutto ≠
      JSNumber.add (renderKPIs dreiBelege).pendingSum (paidSum dreiBelege) := by
  have h1 : JSNumber.toDouble (1 / 10) = 3602879701896397 / 36028797018963968 := by
    rw [JSNumber.toDouble_eval (1 / 10) (-4) 7205759403792794 (by norm_num) (by norm_num)
      (by
        have := JSNumber.roundHalfEven_of_gt ((1 / 10 : ℚ) / 2 ^ ((-4 : ℤ) - 52))
          7205759403792793 (by norm_num) (by norm_num)
        rw [this]; norm_num)]
    norm_num
  have h2 : JSNumber.toDouble (2 / 10) = 3602879701896397 / 18014398509481984 := by
    rw [JSNumber.toDouble_eval (2 / 10) (-3) 7205759403792794 (by norm_num) (by norm_num)
      (by
        have := JSNumber.roundHalfEven_of_gt ((2 / 10 : ℚ) / 2 ^ ((-3 : ℤ) - 52))
          7205759403792793 (by norm_num) (by norm_num)
        rw [this]; norm_num)]
    norm_num
  have h3 : JSNumber.toDouble (3 / 10) = 5404319552844595 / 18014398509481984 := by
    rw [JSNumber.toDouble_eval (3 / 10) (-2) 5404319552844595 (by norm_num) (by norm_num)
      (JSNumber.roundHalfEven_of_lt _ _ (by norm_num) (by norm_num))]
    norm_num
  have ha : JSNumber.add 0 (JSNumber.toDouble (1 / 10)) =
      3602879701896397 / 36028797018963968 := by
    rw [JSNumber.add, zero_add, JSNumber.toDouble_idem _ (by norm_num), h1]
  have hb : JSNumber.add 0 (JSNumber.toDouble (2 / 10)) =
      3602879701896397 / 18014398509481984 := by
    rw [JSNumber.add, zero_add, JSNumber.toDouble_idem _ (by norm_num), h2]
  have hab : JSNumber.add (3602879701896397 / 36028797018963968)
      (3602879701896397 / 18014398509481984) = 1351079888211149 / 4503599627370496 := by
    rw [JSNumber.add, JSNumber.toDouble_eval _ (-2) 5404319552844596 (by norm_num)
      (by norm_num)
      (by
        have := JSNumber.roundHalfEven_of_tie_odd
          (((3602879701896397 : ℚ) / 36028797018963968 + 3602879701896397 / 18014398509481984) /
            2 ^ ((-2 : ℤ) - 52)) 5404319552844595 (by norm_num) (by norm_num)
        rw [this]; norm_num)]
    norm_num
  have habc : JSNumber.add (1351079888211149 / 4503599627370496)
      (5404319552844595 / 18014398509481984) = 1351079888211149 / 2251799813685248 := by
    rw [JSNumber.add, JSNumber.toDouble_eval _ (-1) 5404319552844596 (by norm_num)
      (by norm_num)
      (by
        have := JSNumber.roundHalfEven_of_tie_odd
          (((1351079888211149 : ℚ) / 4503599627370496 + 5404319552844595 / 18014398509481984) /
            2 ^ ((-1 : ℤ) - 52)) 5404319552844595 (by norm_num) (by norm_num)
        rw [this]; norm_num)]
    norm_num
  have hbc : JSNumber.add (3602879701896397 / 18014398509481984)
      (5404319552844595 / 18014398509481984) = 1 / 2 := by
    rw [JSNumber.add, JSNumber.toDouble_eval _ (-1) 4503599627370496 (by norm_num)
      (by norm_num) (JSNumber.roundHalfEven_of_lt _ _ (by norm_num) (by norm_num))]
    norm_num
  have hpp : JSNumber.add (1 / 2) (3602879701896397 / 36028797018963968) =
      5404319552844595 / 9007199254740992 := by
    rw [JSNumber.add, JSNumber.toDouble_eval _ (-1) 5404319552844595 (by norm_num)
      (by norm_num) (JSNumber.roundHalfEven_of_lt _ _ (by norm_num) (by norm_num))]
    norm_num
  obtain ⟨e1, e2, e3⟩ := dreiBelege_sums
  have ht : (renderKPIs dreiBelege).totalBrutto = 1351079888211149 / 2251799813685248 := by
    rw [e1, ha, h2, hab, h3, habc]
  have hp : (renderKPIs dreiBelege).pendingSum = 1 / 2 := by
    rw [e2, hb, h3, hbc]
  have hpaid : paidSum dreiBelege = 3602879701896397 / 36028797018963968 := by
    rw [e3, ha]
  refine ⟨ht, hp, hpaid, ?_, ?_, ?_⟩
  · rw [hp, hpaid, hpp]
  · rw [ht, hp, hpaid]
    norm_num
  · rw [ht, hp, hpaid, hpp]
    norm_num

theorem foldl_filter_le (p : Beleg → Bool) (items : List Beleg)
    (hnn : ∀ b ∈ items, 0 ≤ b.betrag_brutto_number.getD 0) :
    ∀ P T : ℚ, 0 ≤ P → P ≤ T → JSNumber.toDouble T = T →
      (items.filter p).foldl (fun acc b => JSNumber.add acc (b.betrag_brutto_number.getD 0)) P ≤
        items.foldl (fun acc b => JSNumber.add acc (b.betrag_brutto_number.getD 0)) T := by
  induction items with
  | nil =>
    intro P T _ hPT _
    exact hPT
  | cons b rest ih =>
    intro P T hP hPT hT
    have hx : 0 ≤ b.betrag_brutto_number.getD 0 := hnn b (List.mem_cons_self _ _)
    have hrest : ∀ c ∈ rest, 0 ≤ c.betrag_brutto_number.getD 0 :=
      fun c hc => hnn c (List.mem_cons_of_mem _ hc)
    have hT0 : 0 ≤ T := hP.trans hPT
    have hT' : JSNumber.toDouble (JSNumber.add T (b.betrag_brutto_number.getD 0)) =
        JSNumber.add T (b.betrag_brutto_number.getD 0) :=
      JSNumber.toDouble_idem _ (by linarith)
    rw [List.foldl_cons]
    by_cases hb : p b = true
    · rw [List.filter_cons_of_pos hb, List.foldl_cons]
      apply ih hrest _ _ (JSNumber.toDouble_nonneg _ (by linarith)) _ hT'
      exact JSNumber.toDouble_mono (by linarith) (by linarith)
    · rw [List.filter_cons_of_neg hb]
      apply ih hrest _ _ hP _ hT'
      calc P ≤ T := hPT
        _ = JSNumber.toDouble T := hT.symm
        _ ≤ JSNumber.add T (b.betrag_brutto_number.getD 0) :=
          JSNumber.toDouble_mono hT0 (by linarith)

theorem sum_amounts_nonneg (items : List Beleg)
    (hnat : ∀ b ∈ items, ∃ n : ℕ, b.betrag_brutto_number.getD 0 = n) :
    0 ≤ (items.map fun b => b.betrag_brutto_number.getD 0).sum := by
  apply List.sum_nonneg
  intro x hx
  obtain ⟨b, hb, rfl⟩ := List.mem_map.mp hx
  obtain ⟨n, hn⟩ := hnat b hb
  rw [hn]
  exact Nat.cast_nonneg n

theorem foldl_add_exact (items : List Beleg)
    (hnat : ∀ b ∈ items, ∃ n : ℕ, b.betrag_brutto_number.getD 0 = n) :
    ∀ a : ℕ, (a : ℚ) + (items.map fun b => b.betrag_brutto_number.getD 0).sum < 2 ^ 53 →
      items.foldl (fun acc b => JSNumber.add acc (b.betrag_brutto_number.getD 0)) a =
        a + (items.map fun b => b.betrag_brutto_number.getD 0).sum := by
  induction items with
  | nil =>
    intro a _
    simp
  | cons b rest ih =>
    intro a hsum
    obtain ⟨n, hn⟩ := hnat b (List.mem_cons_self _ _)
    have hrest : ∀ c ∈ rest, ∃ n : ℕ, c.betrag_brutto_number.getD 0 = n :=
      fun c hc => hnat c (List.mem_cons_of_mem _ hc)
    have h0 := sum_amounts_nonneg rest hrest
    rw [List.map_cons, List.sum_cons, hn] at hsum
    have hlt : a + n < 2 ^ 53 := by
      have : ((a + n : ℕ) : ℚ) < ((2 ^ 53 : ℕ) : ℚ) := by
        push_cast
        linarith
      exact_mod_cast this
    have hstep : JSNumber.add (a : ℚ) (b.betrag_brutto_number.getD 0) = ((a + n : ℕ) : ℚ) := by
      rw [JSNumber.add, hn]
      have := JSNumber.toDouble_natCast (a + n) hlt
      push_cast at this ⊢
      exact this
    rw [List.foldl_cons, hstep, ih hrest (a + n) (by push_cast; linarith), List.map_cons,
      List.sum_cons, hn]
    push_cast
    ring

theorem sum_filter_add_sum_filter_not (items : List Beleg) :
    ((items.filter fun b =>
        decide (b.status_option_erp_eingangsrechnung_status ≠ some "Bezahlt")).map
          fun b => b.betrag_brutto_number.getD 0).sum +
      ((items.filter fun b =>
        decide (b.status_option_erp_eingangsrechnung_status = some "Bezahlt")).map
          fun b => b.betrag_brutto_number.getD 0).sum =
      (items.map fun b => b.betrag_brutto_number.getD 0).sum := by
  induction items with
  | nil => simp
  | cons b rest ih =>
    by_cases h : b.status_option_erp_eingangsrechnung_status = some "Bezahlt"
    · have e1 : (b :: rest).filter (fun b =>
          decide (b.status_option_erp_eingangsrechnung_status ≠ some "Bezahlt")) =
          rest.filter (fun b =>
            decide (b.status_option_erp_eingangsrechnung_status ≠ some "Bezahlt")) := by
        simp [List.filter_cons, h]
      have e2 : (b :: rest).filter (fun b =>
          decide (b.status_option_erp_eingangsrechnung_status = some "Bezahlt")) =
          b :: rest.filter (fun b =>
            decide (b.status_option_erp_eingangsrechnung_status = some "Bezahlt")) := by
        simp [List.filter_cons, h]
      rw [e1, e2, List.map_cons, List.map_cons, List.sum_cons, List.sum_cons]
      linarith
    · have e1 : (b :: rest).filter (fun b =>
          decide (b.status_option_erp_eingangsrechnung_status ≠ some "Bezahlt")) =
          b :: rest.filter (fun b =>
            decide (b.status_option_erp_eingangsrechnung_status ≠ some "Bezahlt")) := by
        simp [List.filter_cons, h]
      have e2 : (b :: rest).filter (fun b =>
          decide (b.status_option_erp_eingangsrechnung_status = some "Bezahlt")) =
          rest.filter (fun b =>
            decide (b.status_option_erp_eingangsrechnung_status = some "Bezahlt")) := by
        simp [List.filter_cons, h]
      rw [e1, e2, List.map_cons, List.map_cons, List.sum_cons, List.sum_cons]
      linarith

/-- C24 (amended): `renderKPIs` adds the amounts from left to right with the
number operator `+` (a missing amount counting as 0), once over all items and
once over exactly the items whose status is not 'Bezahlt' (items without a
status included).  The pending sum is at most the total when all amounts are
non-negative.  When all amounts are whole numbers with a sum below `2 ^ 53` no
addition rounds: the total is the exact sum, and it equals the pending sum plus
the sum over the 'Bezahlt' items. -/
theorem renderKPIs_sums (items : List Beleg) :
    (renderKPIs items).totalBrutto =
      items.foldl (fun acc b => JSNumber.add acc (b.betrag_brutto_number.getD 0)) 0 ∧
    (renderKPIs items).pendingSum =
      (items.filter fun b =>
          decide (b.status_option_erp_eingangsrechnung_status ≠ some "Bezahlt")).foldl
        (fun acc b => JSNumber.add acc (b.betrag_brutto_number.getD 0)) 0 ∧
    (renderKPIs items).invoiceCount = items.length ∧
    ((∀ b ∈ items, 0 ≤ b.betrag_brutto_number.getD 0) →
      (renderKPIs items).pendingSum ≤ (renderKPIs items).totalBrutto) ∧
    ((∀ b ∈ items, ∃ n : ℕ, b.betrag_brutto_number.getD 0 = n) →
      (items.map fun b => b.betrag_brutto_number.getD 0).sum < 2 ^ 53 →
      (renderKPIs items).totalBrutto = (items.map fun b => b.betrag_brutto_number.getD 0).sum ∧
      (renderKPIs items).pendingSum =
        ((items.filter fun b =>
          decide (b.status_option_erp_eingangsrechnung_status ≠ some "Bezahlt")).map
            fun b => b.betrag_brutto_number.getD 0).sum ∧
      paidSum items =
        ((items.filter fun b =>
          decide (b.status_option_erp_eingangsrechnung_status = some "Bezahlt")).map
            fun b => b.betrag_brutto_number.getD 0).sum ∧
      (renderKPIs items).totalBrutto = (renderKPIs items).pendingSum + paidSum items) := by
  refine ⟨rfl, rfl, rfl, ?_, ?_⟩
  · intro hnn
    exact foldl_filter_le _ items hnn 0 0 (le_refl 0) (le_refl 0) JSNumber.toDouble_zero
  · intro hnat hsum
    have hsplit := sum_filter_add_sum_filter_not items
    have hpn : ∀ b ∈ items.filter fun b =>
        decide (b.status_option_erp_eingangsrechnung_status ≠ some "Bezahlt"),
        ∃ n : ℕ, b.betrag_brutto_number.getD 0 = n :=
      fun b hb => hnat b (List.mem_filter.mp hb).1
    have hqn : ∀ b ∈ items.filter fun b =>
        decide (b.status_option_erp_eingangsrechnung_status = some "Bezahlt"),
        ∃ n : ℕ, b.betrag_brutto_number.getD 0 = n :=
      fun b hb => hnat b (List.mem_filter.mp hb).1
    have hp0 := sum_amounts_nonneg _ hpn
    have hq0 := sum_amounts_nonneg _ hqn
    have ht := foldl_add_exact items hnat 0 (by push_cast; linarith)
    have hp := foldl_add_exact _ hpn 0 (by push_cast; linarith)
    have hq := foldl_add_exact _ hqn 0 (by push_cast; linarith)
    simp only [Nat.cast_zero, zero_add] at ht hp hq
    have e1 : (renderKPIs items).totalBrutto =
        (items.map fun b => b.betrag_brutto_number.getD 0).sum := ht
    have e2 : (renderKPIs items).pendingSum = _ := hp
    have e3 : paidSum items = _ := hq
    refine ⟨e1, e2, e3, ?_⟩
    rw [e1, e2, e3]
    exact hsplit.symm

end ApPortal
